import Mathlib

/-!
# Verification of the DataViz profiling / filtering / analytics core

Shallow embedding of `src/utils/dataProcessing.ts` (column-name
sanitization, value coercion, dataset profiling, type inference,
filtering, descriptive statistics) and of the local analytics engine
(`computeLocalAnalytics`).

Modelling conventions, stated once here:
* JS numbers are modelled as exact rationals (`ℚ`); floating-point
  rounding is not modelled.  `Math.sqrt` composed with
  `Math.round(x*100)/100` is modelled exactly over the reals by an
  integer-square-root computation.
* JS strings are Lean `String`s; all string primitives used by the
  source (`trim`, `toLowerCase`, template literals) are modelled on
  their ASCII behaviour.
* The JS `Date` parser is modelled on the ISO fragment
  `YYYY`, `YYYY-MM`, `YYYY-MM-DD` actually exercised by the data this
  development reasons about; the host parser accepts more formats.
* A JS object is modelled as an association list with unique keys;
  property assignment is modelled by `upsert` (replace in place or
  append), which is exactly the JS semantics including the preserved
  insertion order of `Object.keys`, `Map` and `Set`.
* `null`/`undefined` inputs are modelled by `Option`.
-/

namespace DataViz

/- The Batteries rational primitives are `@[irreducible]`, which blocks
`decide`-style evaluation of concrete dataset computations; restore the
default reducibility for this file. -/
attribute [local semireducible] Rat.mul Rat.add Rat.inv Rat.sub

/-- A JS runtime value that can appear in a dataset cell: a string, a
number (modelled as an exact rational) or a boolean. -/
inductive JsValue where
  | str (s : String)
  | num (q : ℚ)
  | bool (b : Bool)
deriving DecidableEq, Repr

/-- A raw input row: ordered key/value pairs, `none` = `null`/`undefined`. -/
abbrev RawRow := List (String × Option JsValue)

/-- A cleaned row: ordered key/value pairs, never `null`/`undefined`. -/
abbrev CleanRow := List (String × JsValue)

/-! ## String helpers (models of the JS string primitives used) -/

/-- ASCII whitespace recognised by the model of `String.prototype.trim`. -/
def isWs (c : Char) : Bool := c == ' ' || c == '\t' || c == '\n' || c == '\r'

/-- ASCII lower-casing of one character (model of `toLowerCase`). -/
def lowerChar (c : Char) : Char :=
  if 'A' ≤ c ∧ c ≤ 'Z' then Char.ofNat (c.toNat + 32) else c

/-- Model of `String.prototype.toLowerCase` (ASCII fragment). -/
def lowerStr (s : String) : String := ⟨s.data.map lowerChar⟩

/-- Trim whitespace from both ends of a character list. -/
def trimChars (cs : List Char) : List Char :=
  ((cs.dropWhile isWs).reverse.dropWhile isWs).reverse

/-- Model of `String.prototype.trim`. -/
def jsTrim (s : String) : String := ⟨trimChars s.data⟩

/-- Substring test: does `needle` occur contiguously inside `hay`? -/
def strHasInfix (hay needle : String) : Bool :=
  (List.range (hay.data.length + 1)).any
    (fun i => needle.data.isPrefixOf (hay.data.drop i))

/-- Join a list of strings with a separator (model of `Array.join`). -/
def joinSep (sep : String) : List String → String
  | [] => ""
  | x :: xs => xs.foldl (fun a s => a ++ sep ++ s) x

/-- Numeric value of a digit character. -/
def digitVal (c : Char) : ℕ := c.toNat - 48

/-- Natural number denoted by a digit list (most significant first). -/
def natOfDigits (cs : List Char) : ℕ :=
  cs.foldl (fun a c => a * 10 + digitVal c) 0

/-- Left-pad the decimal representation of `n` with zeros to `width`. -/
def padZeros (n width : ℕ) : String :=
  let s := Nat.repr n
  ⟨List.replicate (width - s.data.length) '0' ++ s.data⟩

/-! ## Numeric string parsing

Models of the two regular expressions of the source
(`thousandsPattern = /^[+-]?\d{1,3}(?:[ ,]\d{3})+(?:\.\d+)?$/`,
`simpleNumericPattern = /^[+-]?\d+(?:\.\d+)?$/`) fused with the
subsequent `Number(...)` conversion: the parser returns `some q` exactly
when the pattern matches, and `q` is the exact value of the matched
numeral (separators stripped). -/

/-- Split an optional leading sign. Returns `(negative, rest)`. -/
def splitSign : List Char → Bool × List Char
  | '+' :: r => (false, r)
  | '-' :: r => (true, r)
  | r => (false, r)

/-- Rational denoted by integer digits `ds` and fraction digits `fs`. -/
def ratOfParts (neg : Bool) (ds fs : List Char) : ℚ :=
  let mag : ℚ := (natOfDigits ds : ℚ) + (natOfDigits fs : ℚ) / (10 : ℚ) ^ fs.length
  if neg then -mag else mag

/-- Model of `simpleNumericPattern` + `Number`: `[+-]?\d+(\.\d+)?`. -/
def parseSimpleNumeric (cs : List Char) : Option ℚ :=
  let (neg, cs1) := splitSign cs
  let (ds, r1) := cs1.span Char.isDigit
  if ds.isEmpty then none
  else
    match r1 with
    | [] => some (ratOfParts neg ds [])
    | '.' :: fs =>
      if fs.isEmpty || !(fs.all Char.isDigit) then none
      else some (ratOfParts neg ds fs)
    | _ => none

/-- Consume one-or-more thousands groups (`[ ,]\d{3}`), returning the
collected group digits and the unconsumed remainder. -/
def thousandsGroups : List Char → Option (List Char × List Char)
  | sep :: a :: b :: c :: rest =>
    if (sep == ',' || sep == ' ') && a.isDigit && b.isDigit && c.isDigit then
      match thousandsGroups rest with
      | some (ds, r) => some (a :: b :: c :: ds, r)
      | none => some ([a, b, c], rest)
    else none
  | _ => none

/-- Model of `thousandsPattern` + separator stripping + `Number`:
`[+-]?\d{1,3}([ ,]\d{3})+(\.\d+)?`. -/
def parseThousandsNumeric (cs : List Char) : Option ℚ :=
  let (neg, cs1) := splitSign cs
  let (ds, r1) := cs1.span Char.isDigit
  if ds.length < 1 || 3 < ds.length then none
  else
    match thousandsGroups r1 with
    | none => none
    | some (gs, r2) =>
      match r2 with
      | [] => some (ratOfParts neg (ds ++ gs) [])
      | '.' :: fs =>
        if fs.isEmpty || !(fs.all Char.isDigit) then none
        else some (ratOfParts neg (ds ++ gs) fs)
      | _ => none

/-- The source's two-pattern numeric coercion: thousands form first,
then the plain form (the patterns are mutually exclusive). -/
def numericParse (s : String) : Option ℚ :=
  match parseThousandsNumeric s.data with
  | some q => some q
  | none => parseSimpleNumeric s.data

/-- The bound `2^1024`, the magnitude at which a double overflows to `Infinity`
(written as `(2^64)^16` to keep reduction depth shallow). -/
def doubleOverflowBound : ℕ := (2 ^ 64) ^ 16

/-- Model of `isFinite` on the result of `Number(...)`: a double
overflows to `Infinity` outside `±2^1024` (boundary rounding of the
float format is not modelled). -/
def jsFiniteQ (q : ℚ) : Bool :=
  decide (q < (doubleOverflowBound : ℚ) ∧ -(doubleOverflowBound : ℚ) < q)

/-! ## Models of `parseFloat`, `Number(...)` and number stringification -/

/-- Shortest-decimal stringification of a JS number (model of JS
number-to-string on the decimal-representable fragment; values whose
denominator is not of the form `2^a·5^b` do not arise on the paths
this development evaluates). -/
def jsNumToString (q : ℚ) : String :=
  match (List.range 21).find? (fun k => (q * (10 : ℚ) ^ k).den == 1) with
  | some 0 => toString q.num
  | some k =>
    let m := (q * (10 : ℚ) ^ k).num.natAbs
    let core := Nat.repr (m / 10 ^ k) ++ "." ++ padZeros (m % 10 ^ k) k
    if q < 0 then "-" ++ core else core
  | none => "?"

/-- Model of `String(value)` on dataset cell values. -/
def jsValueToString : JsValue → String
  | .str s => s
  | .num q => jsNumToString q
  | .bool b => if b then "true" else "false"

/-- Model of `parseFloat` on a string: longest decimal prefix after
leading whitespace (exponents, `Infinity` and hex forms are outside the
modelled fragment). `none` = `NaN`. -/
def parseFloatStr (s : String) : Option ℚ :=
  let cs := s.data.dropWhile isWs
  let (neg, cs1) := splitSign cs
  let (ds, r1) := cs1.span Char.isDigit
  match r1 with
  | '.' :: r2 =>
    let fs := r2.takeWhile Char.isDigit
    if ds.isEmpty && fs.isEmpty then none else some (ratOfParts neg ds fs)
  | _ => if ds.isEmpty then none else some (ratOfParts neg ds [])

/-- Model of `parseFloat(value)`: the argument is coerced to a string
first; a numeric argument round-trips to itself. -/
def parseFloatVal : JsValue → Option ℚ
  | .num q => some q
  | .bool _ => none
  | .str s => parseFloatStr s

/-- Model of `parseFloat` applied to a possibly-missing property (`undefined`
parses to `NaN`). -/
def parseFloatOpt (o : Option JsValue) : Option ℚ := o.bind parseFloatVal

/-- Model of the full-string `Number(...)` conversion (decimal fragment:
optional sign, digits, optional fraction; empty/whitespace string is 0;
`none` = `NaN`). -/
def numberLiteral (cs : List Char) : Option ℚ :=
  let (neg, cs1) := splitSign cs
  let (ds, r1) := cs1.span Char.isDigit
  match r1 with
  | [] => if ds.isEmpty then none else some (ratOfParts neg ds [])
  | '.' :: r2 =>
    let (fs, r3) := r2.span Char.isDigit
    if r3.isEmpty && !(ds.isEmpty && fs.isEmpty) then some (ratOfParts neg ds fs)
    else none
  | _ => none

/-- Model of `Number(value)`. -/
def jsNumberOf : JsValue → Option ℚ
  | .num q => some q
  | .bool b => some (if b then 1 else 0)
  | .str s =>
    let t := jsTrim s
    if t.data.isEmpty then some 0 else numberLiteral t.data

/-- Model of `Number` applied to a possibly-missing property
(`Number(undefined) = NaN`). -/
def jsNumberOpt (o : Option JsValue) : Option ℚ := o.bind jsNumberOf

/-! ## Date model

Model of the JS `Date` machinery on the ISO calendar-date fragment
`YYYY`, `YYYY-MM`, `YYYY-MM-DD` (parsed as UTC midnight, exactly as the
ECMAScript date-time string format prescribes). -/

/-- Gregorian leap-year test. -/
def isLeap (y : ℕ) : Bool := y % 4 == 0 && (y % 100 != 0 || y % 400 == 0)

/-- Days in a month of the proleptic Gregorian calendar. -/
def daysInMonth (y m : ℕ) : ℕ :=
  if m == 2 then (if isLeap y then 29 else 28)
  else if m == 4 || m == 6 || m == 9 || m == 11 then 30
  else 31

/-- Parse an ISO calendar date (`YYYY` / `YYYY-MM` / `YYYY-MM-DD`) to a
year/month/day triple; `none` = invalid date (`NaN` timestamp). -/
def jsDateParseYMD (s : String) : Option (ℕ × ℕ × ℕ) :=
  match s.data.splitOn '-' with
  | [y] =>
    if y.length == 4 && y.all Char.isDigit then some (natOfDigits y, 1, 1) else none
  | [y, m] =>
    if y.length == 4 && y.all Char.isDigit && m.length == 2 && m.all Char.isDigit then
      let mn := natOfDigits m
      if 1 ≤ mn ∧ mn ≤ 12 then some (natOfDigits y, mn, 1) else none
    else none
  | [y, m, d] =>
    if y.length == 4 && y.all Char.isDigit && m.length == 2 && m.all Char.isDigit
        && d.length == 2 && d.all Char.isDigit then
      let yn := natOfDigits y
      let mn := natOfDigits m
      let dn := natOfDigits d
      if 1 ≤ mn ∧ mn ≤ 12 ∧ 1 ≤ dn ∧ dn ≤ daysInMonth yn mn then
        some (yn, mn, dn)
      else none
    else none
  | _ => none

/-- Days since the Unix epoch of a Gregorian calendar date
(standard civil-from-days arithmetic, here with floor division). -/
def daysFromCivil (y m d : ℤ) : ℤ :=
  let y1 := if m ≤ 2 then y - 1 else y
  let era := Int.fdiv y1 400
  let yoe := y1 - era * 400
  let mp := Int.emod (m + 9) 12
  let doy := Int.fdiv (153 * mp + 2) 5 + d - 1
  let doe := yoe * 365 + Int.fdiv yoe 4 - Int.fdiv yoe 100 + doy
  era * 146097 + doe - 719468

/-- Inverse of `daysFromCivil`: the calendar date of a day number. -/
def civilFromDays (z0 : ℤ) : ℤ × ℤ × ℤ :=
  let z := z0 + 719468
  let era := Int.fdiv z 146097
  let doe := z - era * 146097
  let yoe := Int.fdiv (doe - Int.fdiv doe 1460 + Int.fdiv doe 36524 - Int.fdiv doe 146096) 365
  let y := yoe + era * 400
  let doy := doe - (365 * yoe + Int.fdiv yoe 4 - Int.fdiv yoe 100)
  let mp := Int.fdiv (5 * doy + 2) 153
  let d := doy - Int.fdiv (153 * mp + 2) 5 + 1
  let m := mp + (if mp < 10 then 3 else -9)
  (if m ≤ 2 then y + 1 else y, m, d)

/-- Epoch milliseconds of a parsed ISO calendar date (UTC midnight). -/
def ymdToMillis (ymd : ℕ × ℕ × ℕ) : ℤ :=
  86400000 * daysFromCivil (ymd.1 : ℤ) (ymd.2.1 : ℤ) (ymd.2.2 : ℤ)

/-- Model of `Date.parse` on a string (`none` = `NaN`). -/
def jsDateParseMillis (s : String) : Option ℤ :=
  (jsDateParseYMD s).map ymdToMillis

/-- Truncation toward zero (the `ToInteger` step of `new Date(number)`). -/
def truncRat (q : ℚ) : ℤ := if 0 ≤ q then Rat.floor q else -(Rat.floor (-q))

/-- Model of `new Date(value).getTime()`: strings are parsed, other
values are converted to a number used as epoch milliseconds, valid iff
within `±8.64e15`.  `none` = invalid date. -/
def jsNewDateMillis (v : JsValue) : Option ℤ :=
  match v with
  | .str s => jsDateParseMillis s
  | other =>
    match jsNumberOf other with
    | some q =>
      if -(8640000000000000 : ℚ) ≤ q ∧ q ≤ 8640000000000000 then some (truncRat q)
      else none
    | none => none

/-- Model of `Date.prototype.toISOString` (fragment: years 0–9999). -/
def toISOString (t : ℤ) : String :=
  let day := Int.fdiv t 86400000
  let ms := (t - day * 86400000).toNat
  let ymd := civilFromDays day
  let hh := ms / 3600000
  let mi := ms % 3600000 / 60000
  let ss := ms % 60000 / 1000
  let mmm := ms % 1000
  padZeros ymd.1.toNat 4 ++ "-" ++ padZeros ymd.2.1.toNat 2 ++ "-" ++
    padZeros ymd.2.2.toNat 2 ++ "T" ++ padZeros hh 2 ++ ":" ++ padZeros mi 2 ++
    ":" ++ padZeros ss 2 ++ "." ++ padZeros mmm 3 ++ "Z"

/-! ## Column-name sanitization (`generateDatasetProfile`, lines 144-160) -/

/-- Model of the regex `/^_+\d+$/` (underscores then digits). -/
def isAutoNumbered (s : String) : Bool :=
  let (us, rest) := s.data.span (· == '_')
  !us.isEmpty && !rest.isEmpty && rest.all Char.isDigit

/-- Model of the regex `/^__?EMPTY.*$/i` (spreadsheet empty marker). -/
def isEmptyMarker (s : String) : Bool :=
  let l := (lowerStr s).data
  "_empty".data.isPrefixOf l || "__empty".data.isPrefixOf l

/-- The `while (existing.includes(candidate))` suffixing loop of
`sanitize`, with explicit fuel.  Each pass appends `_<suffix>` to the
*current* candidate (so the candidate grows cumulatively) and bumps the
suffix counter.  `existing.length + 1` fuel always suffices because
every pass strictly lengthens the candidate. -/
def dedupName : ℕ → List String → String → ℕ → String
  | 0, _, cand, _ => cand
  | fuel + 1, existing, cand, suffix =>
    if cand ∈ existing then
      dedupName fuel existing (cand ++ "_" ++ Nat.repr suffix) (suffix + 1)
    else cand

/-- One call of `sanitize(name)`: trim, replace invalid headers by
`Column_<counter>` (bumping the counter only in that case), then make
the candidate unique against the already-assigned names. -/
def sanitizeStep (existing : List String) (counter : ℕ) (name : String) :
    String × ℕ :=
  let trimmed := jsTrim name
  let invalid := trimmed == "" || isAutoNumbered trimmed || isEmptyMarker trimmed
  let (base, counter') :=
    if invalid then ("Column_" ++ Nat.repr counter, counter + 1) else (trimmed, counter)
  (dedupName (existing.length + 1) existing base 1, counter')

/-- JS object/`Map` assignment: replace the value at an existing key in
place, else append the pair. -/
def upsert {α : Type} (m : List (String × α)) (k : String) (v : α) :
    List (String × α) :=
  match m with
  | [] => [(k, v)]
  | (k', v') :: rest => if k' == k then (k, v) :: rest else (k', v') :: upsert rest k v

/-- First-match association lookup (JS `Map.get` / property read). -/
def mapGet {α : Type} (m : List (String × α)) (k : String) : Option α :=
  (m.find? (fun p => p.1 == k)).map Prod.snd

/-- One `nameMap.set(n, sanitize(n))` step: sanitize against the
current map values and record the assignment (state also carries the
`colCounter`). -/
def nameMapStep (st : List (String × String) × ℕ) (o : String) :
    List (String × String) × ℕ :=
  let r := sanitizeStep (st.1.map Prod.snd) st.2 o
  (upsert st.1 o r.1, r.2)

/-- Model of `rawColumnNames.forEach((n) => nameMap.set(n, sanitize(n)))` —
the old-name → sanitized-name map, threading the `colCounter` state. -/
def buildNameMap (raws : List String) : List (String × String) :=
  (raws.foldl nameMapStep ([], 1)).1

/-- The sanitized name sequence produced for a raw header sequence
(`Array.from(nameMap.values())` after processing all headers). -/
def sanitizeNames (raws : List String) : List String :=
  (buildNameMap raws).map Prod.snd

/-! ## Row cleaning (`generateDatasetProfile`, lines 163-194) -/

/-- Read a property of a raw row; collapses `undefined` (absent key)
and `null` (stored `none`) into `none`, exactly the two cases the
cleaning code maps to `''`. -/
def rowGetRaw (row : RawRow) (k : String) : Option JsValue :=
  match row.find? (fun p => p.1 == k) with
  | some (_, some v) => some v
  | _ => none

/-- Read a property of a cleaned row (`none` = absent = `undefined`). -/
def rowGetC (row : CleanRow) (k : String) : Option JsValue :=
  (row.find? (fun p => p.1 == k)).map Prod.snd

/-- Per-cell coercion of the cleaning loop: `null`/`undefined` → `''`;
strings are trimmed and converted to numbers when they match one of the
two strict numeric patterns; other values pass through. -/
def cleanValue : Option JsValue → JsValue
  | none => .str ""
  | some (.str s) =>
    let t := jsTrim s
    match numericParse t with
    | some q => .num q
    | none => .str t
  | some v => v

/-- Build one cleaned row: iterate the first row's raw keys, write the
coerced value under the sanitized key (object assignment = `upsert`). -/
def cleanRow (raws : List String) (nameMap : List (String × String))
    (row : RawRow) : CleanRow :=
  raws.foldl
    (fun acc orig =>
      upsert acc ((mapGet nameMap orig).getD "") (cleanValue (rowGetRaw row orig)))
    []

/-- Non-null / non-undefined / non-`''` test used by the column pruning
and column-data extraction (on cleaned rows the first two cases only
arise for an absent key). -/
def presentIn (r : CleanRow) (col : String) : Bool :=
  match rowGetC r col with
  | some v => v != .str ""
  | none => false

/-! ## Type detection (`detectColumnType`, lines 263-311) -/

/-- Column semantic types. -/
inductive ColType where
  | string | integer | float | date | boolean
deriving DecidableEq, Repr

/-- The per-value classification bucket. -/
inductive Bucket where
  | booleanB | numericB (isInt : Bool) | dateB | otherB
deriving DecidableEq, Repr

/-- The boolean token set of the classifier. -/
def boolTokens : List String := ["true", "false", "1", "0", "yes", "no"]

/-- Numeric test of the classifier: one of the two patterns matches and
the parsed number is finite. -/
def numericFiniteParse (s : String) : Option ℚ :=
  match numericParse s with
  | some q => if jsFiniteQ q then some q else none
  | none => none

/-- The form `String(value).toLowerCase().trim()` — the normalised string form a
value is classified through. -/
def normValue (v : JsValue) : String := jsTrim (lowerStr (jsValueToString v))

/-- Classify one value: stringify, lowercase, trim; then boolean token,
else finite numeric (recording integrality), else parseable date of
string length `> 4`, else unclassified.  First match wins. -/
def classifyValue (v : JsValue) : Bucket :=
  let sv := normValue v
  if boolTokens.contains sv then .booleanB
  else
    match numericFiniteParse sv with
    | some q => .numericB (q.den == 1)
    | none =>
      if (jsDateParseYMD sv).isSome && 4 < sv.length then .dateB else .otherB

/-- The classifier's `booleanCount`. -/
def boolCount (vs : List JsValue) : ℕ :=
  (vs.filter (fun v => classifyValue v == .booleanB)).length

/-- The classifier's `dateCount`. -/
def dateCount (vs : List JsValue) : ℕ :=
  (vs.filter (fun v => classifyValue v == .dateB)).length

/-- The classifier's `numericCount` (integral or not). -/
def numCount (vs : List JsValue) : ℕ :=
  (vs.filter (fun v =>
    match classifyValue v with | .numericB _ => true | _ => false)).length

/-- The classifier's `integerCount`. -/
def intCount (vs : List JsValue) : ℕ :=
  (vs.filter (fun v => classifyValue v == .numericB true)).length

/-- Values classified into no bucket. -/
def otherCount (vs : List JsValue) : ℕ :=
  (vs.filter (fun v => classifyValue v == .otherB)).length

/-- Model of `detectColumnType`: majority vote with a `0.8` threshold, priority
boolean → date → numeric (integer iff `integerCount/numericCount ≥ 0.9`)
→ string. -/
def detectColumnType (values : List JsValue) : ColType :=
  if values.length = 0 then .string
  else
    let total : ℚ := values.length
    if (boolCount values : ℚ) / total ≥ 4 / 5 then .boolean
    else if (dateCount values : ℚ) / total ≥ 4 / 5 then .date
    else if (numCount values : ℚ) / total ≥ 4 / 5 then
      if (intCount values : ℚ) / (numCount values : ℚ) ≥ 9 / 10 then .integer
      else .float
    else .string

/-! ## Column analysis and profile assembly -/

/-- Worker for insertion-order deduplication. -/
def dedupFirstAux (seen : List JsValue) : List JsValue → List JsValue
  | [] => []
  | x :: xs =>
    if x ∈ seen then dedupFirstAux seen xs else x :: dedupFirstAux (x :: seen) xs

/-- Model of `new Set(values)` insertion-order deduplication. -/
def dedupFirst (vs : List JsValue) : List JsValue := dedupFirstAux [] vs

/-- Minimum of a rational list (`Math.min(...xs)`, callers guard
non-emptiness). -/
def listMinQ : List ℚ → ℚ
  | [] => 0
  | x :: xs => xs.foldl min x

/-- Maximum of a rational list. -/
def listMaxQ : List ℚ → ℚ
  | [] => 0
  | x :: xs => xs.foldl max x

/-- Minimum of an integer list. -/
def listMinZ : List ℤ → ℤ
  | [] => 0
  | x :: xs => xs.foldl min x

/-- Maximum of an integer list. -/
def listMaxZ : List ℤ → ℤ
  | [] => 0
  | x :: xs => xs.foldl max x

/-- A profiled column.  `min`/`max` hold a number for numeric columns
and an ISO-date string for date columns; `none` models an absent
(`undefined`) field. -/
structure DatasetColumn where
  name : String
  type : ColType
  unique_values : ℕ
  sample_values : Option (List JsValue) := none
  min : Option JsValue := none
  max : Option JsValue := none
deriving DecidableEq, Repr

/-- Model of `analyzeColumn`: type, cardinality, up to 5 sample values, and
type-dependent `min`/`max`. -/
def analyzeColumn (name : String) (values : List JsValue) : DatasetColumn :=
  if values.isEmpty then
    { name := name, type := .string, unique_values := 0 }
  else
    let uniq := dedupFirst values
    let nonEmptyValues := values.filter (fun v => v != .str "")
    let t := detectColumnType nonEmptyValues
    let base : DatasetColumn :=
      { name := name, type := t, unique_values := uniq.length,
        sample_values := some (uniq.take 5) }
    match t with
    | .integer | .float =>
      let nums := nonEmptyValues.filterMap parseFloatVal
      if nums.isEmpty then base
      else { base with min := some (.num (listMinQ nums)),
                       max := some (.num (listMaxQ nums)) }
    | .date =>
      let ts := nonEmptyValues.filterMap jsNewDateMillis
      if ts.isEmpty then base
      else { base with min := some (.str (toISOString (listMinZ ts))),
                       max := some (.str (toISOString (listMaxZ ts))) }
    | _ => base

/-- A dataset profile. -/
structure DatasetProfile where
  dataset_name : String
  columns : List DatasetColumn
  sample_rows : List CleanRow
  rows : List CleanRow
  total_rows : ℕ
deriving DecidableEq, Repr

/-- Model of `datasetName.replace(/\.[^/.]+$/, '')`: strip a trailing
dot-extension that contains neither `.` nor `/`. -/
def stripExt (s : String) : String :=
  let r := s.data.reverse
  let ext := r.takeWhile (fun c => !(c == '.' || c == '/'))
  match r.drop ext.length with
  | '.' :: rest => if ext.isEmpty then s else ⟨rest.reverse⟩
  | _ => s

/-- The non-empty values of a column across the cleaned rows
(`columnData` of the source). -/
def columnDataOf (cleaned : List CleanRow) (c : String) : List JsValue :=
  cleaned.filterMap (fun r =>
    match rowGetC r c with
    | some v => if v == .str "" then none else some v
    | none => none)

/-- Model of `generateDatasetProfile`: fail on an empty dataset, otherwise
sanitize the first row's headers, clean every row, keep the columns
with at least one non-empty value, analyze them, and assemble the
profile (first 10 cleaned rows as sample). -/
def generateDatasetProfile (data : List RawRow) (datasetName : String) :
    Except String DatasetProfile :=
  match data with
  | [] => .error "Dataset is empty or invalid"
  | firstRow :: _ =>
    let rawColumnNames := firstRow.map Prod.fst
    let nameMap := buildNameMap rawColumnNames
    let cleanedData := data.map (cleanRow rawColumnNames nameMap)
    let nonEmptyColumns :=
      (nameMap.map Prod.snd).filter (fun col => cleanedData.any (presentIn · col))
    let columns := nonEmptyColumns.map (fun c => analyzeColumn c (columnDataOf cleanedData c))
    .ok { dataset_name := stripExt datasetName,
          columns := columns,
          sample_rows := cleanedData.take 10,
          rows := cleanedData,
          total_rows := cleanedData.length }

/-- The raw header sequence a dataset is profiled under: the keys of
the first row (`Object.keys(data[0])`). -/
def rawKeysOf (data : List RawRow) : List String := (data.headD []).map Prod.fst

/-- The cleaned rows a dataset profiles to. -/
def cleanedDataOf (data : List RawRow) : List CleanRow :=
  data.map (cleanRow (rawKeysOf data) (buildNameMap (rawKeysOf data)))

/-- The sanitized columns with at least one non-empty value. -/
def nonEmptySanitizedCols (data : List RawRow) : List String :=
  (sanitizeNames (rawKeysOf data)).filter
    (fun col => (cleanedDataOf data).any (presentIn · col))

/-- Restrict a raw row to a given key set (drop all other pairs). -/
def restrictRow (keys : List String) (r : RawRow) : RawRow :=
  r.filter (fun p => keys.contains p.1)

/-- The key-set agreement asserted by the specification: every row of
`rows` and of `sample_rows` has exactly the key set of the profiled
column names (and the profiler succeeded). -/
def rowColumnKeySetAgreement (data : List RawRow) (name : String) : Bool :=
  match (generateDatasetProfile data name).toOption with
  | some p =>
    let cols := p.columns.map DatasetColumn.name
    (p.rows ++ p.sample_rows).all (fun r =>
      (r.map Prod.fst).all (cols.contains ·) && cols.all ((r.map Prod.fst).contains ·))
  | none => false

/-! ## Filter engine (`applyFilters`, lines 314-354) -/

/-- A filter configuration: a discrete inclusion list and/or bounds;
`none` models an absent (`undefined`) field. -/
structure FilterSpec where
  column : String
  values : Option (List JsValue) := none
  min : Option JsValue := none
  max : Option JsValue := none
deriving DecidableEq, Repr

/-- Model of `typeof bound === 'number' ? bound : parseFloat(bound)` for a range
bound. -/
def boundToNum (b : JsValue) : Option ℚ :=
  match b with
  | .num q => some q
  | other => parseFloatVal other

/-- Model of `typeof bound === 'string' ? Date.parse(bound) : Number(bound)` for
a range bound (epoch milliseconds as a rational). -/
def boundToTime (b : JsValue) : Option ℚ :=
  match b with
  | .str s => (jsDateParseMillis s).map (fun t => (t : ℚ))
  | other => jsNumberOf other

/-- Model of `Date.parse(rawValue)` for a row value (string coercion first;
`undefined` never parses). -/
def rawValueTime (o : Option JsValue) : Option ℚ :=
  o.bind (fun v => (jsDateParseMillis (jsValueToString v)).map (fun t => (t : ℚ)))

/-- Does one row pass one filter?  Discrete inclusion (strict equality
on the raw value) when a non-empty `values` list is given; otherwise,
with both bounds present, numeric comparison first, then date
comparison, and `true` when neither is viable; `true` when no criterion
applies. -/
def matchesFilter (row : CleanRow) (f : FilterSpec) : Bool :=
  let rawValue := rowGetC row f.column
  if (f.values.getD []).length > 0 then
    match rawValue with
    | some v => (f.values.getD []).contains v
    | none => false
  else
    match f.min, f.max with
    | some minVal, some maxVal =>
      match parseFloatOpt rawValue, boundToNum minVal, boundToNum maxVal with
      | some n, some mn, some mx => decide (mn ≤ n ∧ n ≤ mx)
      | _, _, _ =>
        match rawValueTime rawValue, boundToTime minVal, boundToTime maxVal with
        | some t, some mnT, some mxT => decide (mnT ≤ t ∧ t ≤ mxT)
        | _, _, _ => true
    | _, _ => true

/-- Model of `applyFilters`: keep the rows matching every filter, in order. -/
def applyFilters (data : List CleanRow) (filters : List FilterSpec) :
    List CleanRow :=
  data.filter (fun row => filters.all (matchesFilter row))

/-! ## Stats engine (`generateColumnStats`, lines 363-384) -/

/-- Insert into a sorted list, after all elements `y` with `le y x`
(stable insertion). -/
def insertLe {α : Type} (le : α → α → Bool) (x : α) : List α → List α
  | [] => [x]
  | y :: ys => if le y x then y :: insertLe le x ys else x :: y :: ys

/-- Stable sort by a boolean total preorder — the extensional behaviour
of `Array.prototype.sort` with a consistent comparator. -/
def sortLe {α : Type} (le : α → α → Bool) (l : List α) : List α :=
  l.foldl (fun acc x => insertLe le x acc) []

/-- Fuel-structural integer square root (digit-pair recursion
`⌊√n⌋ = adjust (2·⌊√(n/4)⌋)`); the fuel only bounds the recursion
depth, `fuel ≥ n` always suffices. -/
def isqrtFuel : ℕ → ℕ → ℕ
  | 0, _ => 0
  | fuel + 1, n =>
    if n = 0 then 0
    else
      let r := 2 * isqrtFuel fuel (n / 4)
      if (r + 1) * (r + 1) ≤ n then r + 1 else r

/-- The value `⌊√n⌋` (kernel-evaluable integer square root). -/
def intSqrt (n : ℕ) : ℕ := isqrtFuel n n

/-- Model of `Math.round` (half toward `+∞`). -/
def jsRound (x : ℚ) : ℤ := Rat.floor (x + 1 / 2)

/-- Model of `Math.round(x * 100) / 100`. -/
def round2 (x : ℚ) : ℚ := (jsRound (x * 100) : ℚ) / 100

/-- Model of `Math.round(Math.sqrt(v) * 100) / 100` computed exactly for a
non-negative rational `v`: the integer `⌊100·√v + 1/2⌋` equals
`(⌊√(40000·v)⌋ + 1) / 2` with integer square root and floor division. -/
def roundSqrt2 (v : ℚ) : ℚ :=
  ((intSqrt (Int.toNat (Rat.floor (40000 * v))) + 1) / 2 : ℕ) / 100

/-- The result record of `generateColumnStats`. -/
structure ColumnStats where
  count : ℕ
  mean : ℚ
  median : ℚ
  std : ℚ
  min : ℚ
  max : ℚ
deriving DecidableEq, Repr

/-- Model of `generateColumnStats`: parseable floats of the named column; all
zeros if none; else mean, upper-middle median of the ascending sort,
population standard deviation, with `mean`/`median`/`std` rounded to 2
decimals, `min`/`max` exact. -/
def generateColumnStats (data : List CleanRow) (column : String) : ColumnStats :=
  let values := data.filterMap (fun r => parseFloatOpt (rowGetC r column))
  if values.isEmpty then
    { count := 0, mean := 0, median := 0, std := 0, min := 0, max := 0 }
  else
    let n : ℚ := values.length
    let sorted := sortLe (fun a b => a ≤ b) values
    let mean := values.sum / n
    let median := sorted.getD (sorted.length / 2) 0
    let variance := (values.map (fun v => (v - mean) ^ 2)).sum / n
    { count := values.length,
      mean := round2 mean,
      median := round2 median,
      std := roundSqrt2 variance,
      min := listMinQ values,
      max := listMaxQ values }

/-! ## Local analytics engine (`computeLocalAnalytics`) -/

/-- First match of the regex `/(19|20)\d{2}/` anywhere in the string. -/
def findYear : List Char → Option ℕ
  | [] => none
  | c :: rest =>
    match c, rest with
    | '1', '9' :: a :: b :: _ =>
      if a.isDigit && b.isDigit then some (1900 + 10 * digitVal a + digitVal b)
      else findYear rest
    | '2', '0' :: a :: b :: _ =>
      if a.isDigit && b.isDigit then some (2000 + 10 * digitVal a + digitVal b)
      else findYear rest
    | _, _ => findYear rest

/-- Model of `parseYear`: `null`/`undefined` yields nothing; otherwise stringify
and take the first 19xx/20xx match, else fall back to date parsing and
take the year. -/
def parseYearVal (o : Option JsValue) : Option ℤ :=
  match o with
  | none => none
  | some v =>
    let s := jsValueToString v
    match findYear s.data with
    | some y => some (y : ℤ)
    | none =>
      match jsDateParseYMD s with
      | some ymd => some (ymd.1 : ℤ)
      | none => none

/-- Model of `perYear.set(y, (perYear.get(y) || 0) + v)` on an insertion-ordered
map. -/
def addAtKeyZ (m : List (ℤ × ℚ)) (y : ℤ) (v : ℚ) : List (ℤ × ℚ) :=
  match m with
  | [] => [(y, v)]
  | (k, w) :: rest => if k == y then (k, w + v) :: rest else (k, w) :: addAtKeyZ rest y v

/-- Lookup in an integer-keyed association list. -/
def lookupZ (m : List (ℤ × ℚ)) (y : ℤ) : Option ℚ :=
  (m.find? (fun p => p.1 == y)).map Prod.snd

/-- Same accumulation for string keys (category totals). -/
def addAtKeyS (m : List (String × ℚ)) (k : String) (v : ℚ) : List (String × ℚ) :=
  match m with
  | [] => [(k, v)]
  | (k', w) :: rest =>
    if k' == k then (k', w + v) :: rest else (k', w) :: addAtKeyS rest k v

/-- Absolute value of a rational (`Math.abs`). -/
def ratAbs (q : ℚ) : ℚ := if q < 0 then -q else q

/-- Does a column name match `/year|date|time|occurrence/i`? -/
def nameLooksDated (name : String) : Bool :=
  let l := lowerStr name
  strHasInfix l "year" || strHasInfix l "date" || strHasInfix l "time" ||
    strHasInfix l "occurrence"

/-- Insight 1: year-over-year change of the first numeric column summed
per year of the first date-like column, comparing the two most recent
years, emitted only when the prior year's total is non-zero. -/
def yoyLines (rows : List CleanRow) (dateCols numericCols : List String) :
    List String :=
  match dateCols, numericCols with
  | dKey :: _, nKey :: _ =>
    let perYear := rows.foldl
      (fun m r =>
        match parseYearVal (rowGetC r dKey), jsNumberOpt (rowGetC r nKey) with
        | some y, some v => addAtKeyZ m y v
        | _, _ => m)
      []
    let years := sortLe (fun a b => a ≤ b) (perYear.map Prod.fst)
    if years.length ≥ 2 then
      let latest := years.getD (years.length - 1) 0
      let prev := years.getD (years.length - 2) 0
      let latestVal := (lookupZ perYear latest).getD 0
      let prevVal := (lookupZ perYear prev).getD 0
      if prevVal ≠ 0 then
        let yoy := (latestVal - prevVal) / ratAbs prevVal * 100
        let signStr := if yoy ≥ 0 then "+" else ""
        ["YoY change of " ++ nKey ++ " from " ++ toString prev ++ " to " ++
          toString latest ++ ": " ++ signStr ++
          jsNumToString ((jsRound (yoy * 10) : ℚ) / 10) ++ "%"]
      else []
    else []
  | _, _ => []

/-- Insight 2: top-3 category totals of the first numeric column over
the first categorical column, as integer percentages of the grand
total, emitted only when the grand total is positive. -/
def topCategoryLines (rows : List CleanRow) (catCols numericCols : List String) :
    List String :=
  match catCols, numericCols with
  | cKey :: _, nKey :: _ =>
    let st := rows.foldl
      (fun (st : List (String × ℚ) × ℚ) r =>
        let k := jsTrim (jsValueToString ((rowGetC r cKey).getD (.str "")))
        match jsNumberOpt (rowGetC r nKey) with
        | some v => if k != "" then (addAtKeyS st.1 k v, st.2 + v) else st
        | none => st)
      ([], 0)
    let top := (sortLe (fun a b => b.2 ≤ a.2) st.1).take 3
    if st.2 > 0 ∧ top ≠ [] then
      let parts := top.map (fun p =>
        p.1 ++ " (" ++ toString (jsRound (p.2 / st.2 * 100)) ++ "%)")
      ["Top " ++ cKey ++ " by " ++ nKey ++ ": " ++ joinSep ", " parts]
    else []
  | _, _ => []

/-- Insight 3: count of values of the first numeric column whose
absolute z-score exceeds 2.5 (emitted only with more than 5 values and
positive deviation; `|v−mean|/σ > 2.5 ⟺ 4·(v−mean)² > 25·σ²`). -/
def outlierLines (rows : List CleanRow) (numericCols : List String) :
    List String :=
  match numericCols with
  | nKey :: _ =>
    let vals := rows.filterMap (fun r => jsNumberOpt (rowGetC r nKey))
    if vals.length > 5 then
      let n : ℚ := vals.length
      let mean := vals.sum / n
      let variance := (vals.map (fun v => (v - mean) ^ 2)).sum / n
      if variance > 0 then
        let outliers := (vals.filter (fun v => (v - mean) ^ 2 * 4 > 25 * variance)).length
        if outliers > 0 then
          ["Detected " ++ toString outliers ++ " potential outliers in " ++
            nKey ++ " (|z| > 2.5)."]
        else ["No strong outliers in " ++ nKey ++ " (stable distribution)."]
      else []
    else []
  | [] => []

/-- All unordered pairs `(i, j)` with `i < j`, in the nested-loop order
of the source. -/
def pairsOf {α : Type} : List α → List (α × α)
  | [] => []
  | x :: xs => xs.map (fun y => (x, y)) ++ pairsOf xs

/-- The value `⌊b / √D⌋` for a rational `b` and a positive rational `D`,
computed exactly with integer square roots. -/
def floorDivSqrt (b : ℚ) (D : ℚ) : ℤ :=
  let k : ℤ := intSqrt (Int.toNat (Rat.floor (b ^ 2 / D)))
  if 0 ≤ b then k
  else if (k : ℚ) ^ 2 * D = b ^ 2 then -k else -k - 1

/-- Model of `Math.round(100 · num / √D)` for positive `D`, exactly:
`⌊x + 1/2⌋ = ⌊(⌊2x⌋ + 1) / 2⌋` with `x = 100·num/√D`. -/
def roundRatioSqrt (num D : ℚ) : ℤ :=
  Int.fdiv (floorDivSqrt (200 * num) D + 1) 2

/-- The Pearson-correlation insight string for one column pair, if the
pair has at least 5 co-present numeric values and `|r| ≥ 0.6`
(`r = num/(√denx·√deny)`, 0 when a denominator vanishes;
`|r| ≥ 0.6 ⟺ denx·deny > 0 ∧ 25·num² ≥ 9·denx·deny`, and the display
value `Math.round(r·100)/100` is computed exactly). -/
def pairLine (rows : List CleanRow) (p : String × String) : Option String :=
  let ab := rows.filterMap (fun r =>
    match jsNumberOpt (rowGetC r p.1), jsNumberOpt (rowGetC r p.2) with
    | some a, some b => some (a, b)
    | _, _ => none)
  if ab.length ≥ 5 then
    let n : ℚ := ab.length
    let mx := (ab.map Prod.fst).sum / n
    let my := (ab.map Prod.snd).sum / n
    let num := (ab.map (fun q => (q.1 - mx) * (q.2 - my))).sum
    let denx := (ab.map (fun q => (q.1 - mx) ^ 2)).sum
    let deny := (ab.map (fun q => (q.2 - my) ^ 2)).sum
    if denx * deny > 0 ∧ 25 * num ^ 2 ≥ 9 * (denx * deny) then
      some (p.1 ++ " vs " ++ p.2 ++ " (r=" ++
        jsNumToString ((roundRatioSqrt num (denx * deny) : ℚ) / 100) ++ ")")
    else none
  else none

/-- Insight 4: up to three numeric column pairs with `|r| ≥ 0.6`. -/
def correlationLines (rows : List CleanRow) (numericCols : List String) :
    List String :=
  if numericCols.length ≥ 2 then
    let pairs := (pairsOf numericCols).filterMap (pairLine rows)
    if pairs ≠ [] then ["Strong correlations: " ++ joinSep "; " (pairs.take 3)]
    else []
  else []

/-- The result record of `computeLocalAnalytics`. -/
structure LocalAnalyticsSummary where
  lines : List String
deriving DecidableEq, Repr

/-- Model of `computeLocalAnalytics`: select numeric / categorical / date-like
columns from the profile and emit the four insight families in order. -/
def computeLocalAnalytics (profile : DatasetProfile) (rows : List CleanRow) :
    LocalAnalyticsSummary :=
  if rows.isEmpty then ⟨[]⟩
  else
    let numericCols := (profile.columns.filter
      (fun c => c.type == .integer || c.type == .float)).map DatasetColumn.name
    let catCols := (profile.columns.filter
      (fun c => c.type == .string)).map DatasetColumn.name
    let dateCols := (profile.columns.filter
      (fun c => c.type == .date || nameLooksDated c.name)).map DatasetColumn.name
    ⟨yoyLines rows dateCols numericCols ++
      topCategoryLines rows catCols numericCols ++
      outlierLines rows numericCols ++
      correlationLines rows numericCols⟩

/-! # Theorems -/

/-! ## The integer square root and the rounded-square-root model -/

/-- With fuel at least `n`, the fuel-structural square root is the
integer square root. -/
theorem isqrtFuel_correct :
    ∀ (fuel n : ℕ), n ≤ fuel →
      isqrtFuel fuel n ^ 2 ≤ n ∧ n < (isqrtFuel fuel n + 1) ^ 2 := by
  intro fuel
  induction fuel with
  | zero =>
    intro n h
    have hn : n = 0 := Nat.le_zero.mp h
    subst hn
    simp [isqrtFuel]
  | succ f ih =>
    intro n h
    rw [isqrtFuel]
    by_cases h0 : n = 0
    · subst h0; simp
    · rw [if_neg h0]
      have hle : n / 4 ≤ f := by omega
      obtain ⟨hs1, hs2⟩ := ih (n / 4) hle
      set s := isqrtFuel f (n / 4) with hs
      have hdiv1 : 4 * (n / 4) ≤ n := Nat.mul_div_le n 4 |>.trans_eq (by ring_nf) |>.trans (le_refl n)
      have hdiv2 : n < 4 * (n / 4) + 4 := by omega
      have hupper : n < (2 * s + 2) ^ 2 := by
        have h1 : n / 4 + 1 ≤ (s + 1) ^ 2 := hs2
        calc n < 4 * (n / 4) + 4 := hdiv2
          _ = 4 * (n / 4 + 1) := by ring
          _ ≤ 4 * (s + 1) ^ 2 := by omega
          _ = (2 * s + 2) ^ 2 := by ring
      by_cases hc : (2 * s + 1) * (2 * s + 1) ≤ n
      · rw [if_pos hc]
        constructor
        · calc (2 * s + 1) ^ 2 = (2 * s + 1) * (2 * s + 1) := sq (2 * s + 1)
            _ ≤ n := hc
        · calc n < (2 * s + 2) ^ 2 := hupper
            _ = (2 * s + 1 + 1) ^ 2 := by ring
      · rw [if_neg hc]
        constructor
        · calc (2 * s) ^ 2 = 4 * s ^ 2 := by ring
            _ ≤ 4 * (n / 4) := by omega
            _ ≤ n := hdiv1
        · calc n < (2 * s + 1) * (2 * s + 1) := Nat.lt_of_not_le hc
            _ = (2 * s + 1) ^ 2 := (sq (2 * s + 1)).symm

/-- The specification of `intSqrt`: it is `⌊√n⌋`. -/
theorem intSqrt_spec (n : ℕ) :
    intSqrt n ^ 2 ≤ n ∧ n < (intSqrt n + 1) ^ 2 :=
  isqrtFuel_correct n n le_rfl

/-- The claimed reading of `roundSqrt2`: on a non-negative rational it
is exactly `Math.round(Math.sqrt v * 100) / 100` computed over the
reals — the integer-square-root detour is faithful. -/
theorem roundSqrt2_eq_round_sqrt (v : ℚ) (hv : 0 ≤ v) :
    roundSqrt2 v =
      ((⌊(100 : ℝ) * Real.sqrt ((v : ℝ)) + 1 / 2⌋₊ : ℕ) : ℚ) / 100 := by
  have h40 : (0 : ℚ) ≤ 40000 * v := by positivity
  have hfz : Rat.floor (40000 * v) = ⌊(40000 * v : ℚ)⌋ :=
    Int.le_antisymm (Int.le_floor.mpr (Rat.le_floor.mp le_rfl))
      (Rat.le_floor.mpr (Int.floor_le _))
  have hfnn : (0 : ℤ) ≤ Rat.floor (40000 * v) := by
    rw [hfz]
    exact Int.floor_nonneg.mpr h40
  set N : ℕ := Int.toNat (Rat.floor (40000 * v)) with hNdef
  set m : ℕ := intSqrt N with hmdef
  obtain ⟨hm1, hm2⟩ := intSqrt_spec N
  have hNZ : (N : ℤ) = ⌊(40000 * v : ℚ)⌋ := by
    rw [hNdef, Int.toNat_of_nonneg hfnn, hfz]
  have hNQ1 : (N : ℚ) ≤ 40000 * v := by
    have h := Int.floor_le (40000 * v : ℚ)
    rw [← hNZ] at h
    exact_mod_cast h
  have hNQ2 : 40000 * v < (N : ℚ) + 1 := by
    have h := Int.lt_floor_add_one (40000 * v : ℚ)
    rw [← hNZ] at h
    exact_mod_cast h
  have hR1 : ((m : ℝ)) ^ 2 ≤ 40000 * (v : ℝ) := by
    have hq : ((m : ℚ)) ^ 2 ≤ 40000 * v := by
      calc ((m : ℚ)) ^ 2 = ((m ^ 2 : ℕ) : ℚ) := by push_cast; ring
        _ ≤ (N : ℚ) := by exact_mod_cast hm1
        _ ≤ 40000 * v := hNQ1
    exact_mod_cast hq
  have hR2 : 40000 * (v : ℝ) < ((m : ℝ) + 1) ^ 2 := by
    have hsucc : (N + 1 : ℕ) ≤ (m + 1) ^ 2 := hm2
    have hq : 40000 * v < ((m : ℚ) + 1) ^ 2 := by
      calc 40000 * v < (N : ℚ) + 1 := hNQ2
        _ = ((N + 1 : ℕ) : ℚ) := by push_cast; ring
        _ ≤ (((m + 1) ^ 2 : ℕ) : ℚ) := by exact_mod_cast hsucc
        _ = ((m : ℚ) + 1) ^ 2 := by push_cast; ring
    exact_mod_cast hq
  have hsq : Real.sqrt (40000 * (v : ℝ)) = 200 * Real.sqrt (v : ℝ) := by
    rw [show (40000 : ℝ) * (v : ℝ) = (200 : ℝ) ^ 2 * (v : ℝ) by norm_num,
      Real.sqrt_mul (by positivity), Real.sqrt_sq (by norm_num)]
  have hle : (m : ℝ) ≤ 200 * Real.sqrt (v : ℝ) := by
    rw [← hsq]
    exact (Real.le_sqrt (by positivity) (by positivity)).mpr hR1
  have hlt : 200 * Real.sqrt (v : ℝ) < (m : ℝ) + 1 := by
    rw [← hsq]
    exact (Real.sqrt_lt' (by positivity)).mpr hR2
  have hfloorm : ⌊(200 : ℝ) * Real.sqrt (v : ℝ)⌋₊ = m := by
    rw [Nat.floor_eq_iff (by positivity)]
    exact ⟨hle, hlt⟩
  have hsplit : (100 : ℝ) * Real.sqrt (v : ℝ) + 1 / 2 =
      ((200 : ℝ) * Real.sqrt (v : ℝ) + 1) / ((2 : ℕ) : ℝ) := by
    push_cast
    ring
  rw [hsplit, Nat.floor_div_nat, Nat.floor_add_one (by positivity), hfloorm]
  simp only [roundSqrt2, ← hNdef, ← hmdef]

/-! ## Correctness of the sort model -/

/-- Stable insertion produces a permutation of the cons. -/
theorem insertLe_perm {α : Type} (le : α → α → Bool) (x : α) :
    ∀ l : List α, (insertLe le x l).Perm (x :: l) := by
  intro l
  induction l with
  | nil => rfl
  | cons y ys ih =>
    rw [insertLe]
    by_cases h : le y x = true
    · rw [if_pos h]
      exact (ih.cons y).trans (List.Perm.swap x y ys)
    · rw [if_neg h]

/-- The sort model permutes its input (no element gained or lost). -/
theorem sortLe_perm {α : Type} (le : α → α → Bool) (l : List α) :
    (sortLe le l).Perm l := by
  suffices haux : ∀ (l : List α) (acc : List α),
      (l.foldl (fun a x => insertLe le x a) acc).Perm (acc ++ l) by
    exact (haux l []).trans (by simp)
  intro l
  induction l with
  | nil => intro acc; simp
  | cons x xs ih =>
    intro acc
    rw [List.foldl_cons]
    refine (ih (insertLe le x acc)).trans ?_
    refine (List.Perm.append_right xs (insertLe_perm le x acc)).trans ?_
    simpa using (List.perm_middle).symm

/-- For a total transitive boolean preorder, the sort model is sorted:
consecutive elements are related by `le` — the extensional behaviour of
`Array.prototype.sort` with a consistent comparator. -/
theorem sortLe_sorted {α : Type} (le : α → α → Bool)
    (htot : ∀ a b, le a b = true ∨ le b a = true)
    (htrans : ∀ a b c, le a b = true → le b c = true → le a c = true)
    (l : List α) : (sortLe le l).Pairwise (fun a b => le a b = true) := by
  have hins : ∀ (acc : List α) (x : α),
      acc.Pairwise (fun a b => le a b = true) →
      (insertLe le x acc).Pairwise (fun a b => le a b = true) := by
    intro acc
    induction acc with
    | nil => intro x _; simp [insertLe]
    | cons y ys ih =>
      intro x hp
      rw [List.pairwise_cons] at hp
      rw [insertLe]
      by_cases h : le y x = true
      · rw [if_pos h]
        rw [List.pairwise_cons]
        refine ⟨?_, ih x hp.2⟩
        intro a ha
        rcases List.mem_cons.mp ((insertLe_perm le x ys).mem_iff.mp ha) with rfl | hmem
        · exact h
        · exact hp.1 a hmem
      · rw [if_neg h]
        have hxy : le x y = true := (htot x y).resolve_right (by simpa using h)
        rw [List.pairwise_cons]
        refine ⟨?_, List.pairwise_cons.mpr hp⟩
        intro a ha
        rcases List.mem_cons.mp ha with rfl | hmem
        · exact hxy
        · exact htrans x y a hxy (hp.1 a hmem)
  suffices haux : ∀ (l : List α) (acc : List α),
      acc.Pairwise (fun a b => le a b = true) →
      (l.foldl (fun a x => insertLe le x a) acc).Pairwise
        (fun a b => le a b = true) by
    exact haux l [] List.Pairwise.nil
  intro l
  induction l with
  | nil => intro acc h; exact h
  | cons x xs ih =>
    intro acc h
    rw [List.foldl_cons]
    exact ih (insertLe le x acc) (hins acc x h)

/-! ## Freshness of the sanitization dedup loop -/

/-- Strict filter-length decrease when the filter is strengthened and a
list element separates the two predicates. -/
theorem length_filter_lt_of_sep {α : Type} (l : List α) (p q : α → Bool)
    (hpq : ∀ a, q a = true → p a = true)
    (hsep : ∃ a ∈ l, p a = true ∧ q a = false) :
    (l.filter q).length < (l.filter p).length := by
  induction l with
  | nil => rcases hsep with ⟨a, ha, _⟩; cases ha
  | cons x xs ih =>
    have hmono : (xs.filter q).length ≤ (xs.filter p).length := by
      clear hsep ih
      induction xs with
      | nil => simp
      | cons y ys ihy =>
        by_cases hq : q y = true
        · simp [List.filter_cons, hq, hpq y hq]
          omega
        · have hq' : q y = false := by simpa using hq
          by_cases hp : p y = true <;>
            simp [List.filter_cons, hq', hp] <;> omega
    rcases hsep with ⟨a, ha, hpa, hqa⟩
    rcases List.mem_cons.mp ha with rfl | hmem
    · simp [List.filter_cons, hpa, hqa]
      omega
    · have := ih ⟨a, hmem, hpa, hqa⟩
      by_cases hq : q x = true
      · simp [List.filter_cons, hq, hpq x hq]
        omega
      · have hq' : q x = false := by simpa using hq
        by_cases hp : p x = true <;>
          simp [List.filter_cons, hq', hp] <;> omega

/-- Each pass of the dedup loop strictly lengthens the candidate, so
with more fuel than names at least as long as the candidate the result
is never one of the existing names. -/
theorem dedupName_not_mem :
    ∀ (fuel : ℕ) (existing : List String) (cand : String) (suffix : ℕ),
      (existing.filter (fun e => cand.length ≤ e.length)).length < fuel →
      dedupName fuel existing cand suffix ∉ existing := by
  intro fuel
  induction fuel with
  | zero => intro existing cand suffix h; omega
  | succ n ih =>
    intro existing cand suffix h
    by_cases hmem : cand ∈ existing
    · rw [dedupName, if_pos hmem]
      apply ih
      have hlt : cand.length < (cand ++ "_" ++ Nat.repr suffix).length := by
        simp [String.length_append]
        have : 0 < ("_" : String).length := by decide
        omega
      have hstrict :
          (existing.filter
              (fun e => (cand ++ "_" ++ Nat.repr suffix).length ≤ e.length)).length <
            (existing.filter (fun e => cand.length ≤ e.length)).length := by
        apply length_filter_lt_of_sep
        · intro a ha
          simp only [decide_eq_true_eq] at ha ⊢
          omega
        · refine ⟨cand, hmem, ?_, ?_⟩
          · simp
          · simp only [decide_eq_false_iff_not]
            omega
      omega
    · rw [dedupName, if_neg hmem]
      exact hmem

/-- With the fuel budget the source's loop is run at
(`existing.length + 1`), the dedup loop always lands outside
`existing`. -/
theorem dedupName_fresh (existing : List String) (cand : String) (suffix : ℕ) :
    dedupName (existing.length + 1) existing cand suffix ∉ existing := by
  apply dedupName_not_mem
  have := List.length_filter_le (fun e => decide (cand.length ≤ e.length)) existing
  omega

/-- The name produced by one sanitization step is fresh with respect to
the already-assigned names. -/
theorem sanitizeStep_fresh (existing : List String) (counter : ℕ)
    (name : String) : (sanitizeStep existing counter name).1 ∉ existing := by
  rw [sanitizeStep]
  split
  exact dedupName_fresh _ _ _

/-- C5: on a column holding the values `[1, 2, 3, 4]` the stats are
`count = 4`, `mean = 2.5`, `median = 3` (upper-middle element of the
ascending sort), `std = 1.12` (population standard deviation, rounded
to 2 decimals), `min = 1`, `max = 4`; and whenever no value of the
column parses as a float, all stats are zero with `count = 0`. -/
theorem c5_column_stats :
    generateColumnStats [[("v", JsValue.num 1)], [("v", JsValue.num 2)],
        [("v", JsValue.num 3)], [("v", JsValue.num 4)]] "v" =
      { count := 4, mean := 5 / 2, median := 3, std := 28 / 25, min := 1, max := 4 } ∧
    ∀ (data : List CleanRow) (column : String),
      data.filterMap (fun r => parseFloatOpt (rowGetC r column)) = [] →
      generateColumnStats data column =
        { count := 0, mean := 0, median := 0, std := 0, min := 0, max := 0 } := by
  constructor
  · decide
  · intro data column h
    simp [generateColumnStats, h]

/-- C5 witness: a column none of whose values parses as a float yields
the all-zero stats record. -/
theorem c5_column_stats_witness :
    generateColumnStats [[("v", JsValue.str "x")], [("w", JsValue.num 3)]] "v" =
      { count := 0, mean := 0, median := 0, std := 0, min := 0, max := 0 } :=
  c5_column_stats.2 [[("v", JsValue.str "x")], [("w", JsValue.num 3)]] "v" (by rfl)

/-- C8: `applyFilters` is the pure, order-preserving conjunction of the
per-filter predicate: it equals `List.filter` of "matches every
filter", its result is a sublist of the input (order preserved), a row
is in the output iff it is an input row matching every filter, a
discrete filter with a non-empty inclusion list keeps a row iff the raw
value is a member (strict equality, `undefined` never matches), and the
two degenerate laws `applyFilters rows [] = rows`,
`applyFilters [] filters = []` hold. -/
theorem c8_applyFilters_contract :
    (∀ (rows : List CleanRow) (filters : List FilterSpec),
        applyFilters rows filters =
          rows.filter (fun r => filters.all (matchesFilter r))) ∧
    (∀ (rows : List CleanRow) (filters : List FilterSpec),
        (applyFilters rows filters).Sublist rows) ∧
    (∀ (rows : List CleanRow) (filters : List FilterSpec) (r : CleanRow),
        r ∈ applyFilters rows filters ↔
          r ∈ rows ∧ ∀ f ∈ filters, matchesFilter r f = true) ∧
    (∀ (row : CleanRow) (f : FilterSpec) (vs : List JsValue),
        f.values = some vs → vs ≠ [] →
        matchesFilter row f =
          match rowGetC row f.column with
          | some v => vs.contains v
          | none => false) ∧
    (∀ rows : List CleanRow, applyFilters rows [] = rows) ∧
    (∀ filters : List FilterSpec, applyFilters [] filters = []) := by
  refine ⟨fun _ _ => rfl, fun rows filters => List.filter_sublist rows, ?_, ?_, ?_, fun _ => rfl⟩
  · intro rows filters r
    simp [applyFilters, List.mem_filter, List.all_eq_true]
  · intro row f vs hv hne
    have hlen : 0 < vs.length := List.length_pos.mpr hne
    simp only [matchesFilter, hv, Option.getD_some]
    simp [hlen]
  · intro rows
    simp [applyFilters]

/-- C8 witness: a discrete filter keeps a row whose raw value is a
member of the inclusion list. -/
theorem c8_applyFilters_witness :
    matchesFilter [("a", JsValue.num 5)]
        { column := "a", values := some [JsValue.num 5, JsValue.str "z"] } =
      match rowGetC [("a", JsValue.num 5)] "a" with
      | some v => [JsValue.num 5, JsValue.str "z"].contains v
      | none => false :=
  c8_applyFilters_contract.2.2.2.1 [("a", JsValue.num 5)]
    { column := "a", values := some [JsValue.num 5, JsValue.str "z"] }
    [JsValue.num 5, JsValue.str "z"] rfl (by decide)

/-! ## Association-list lemmas about `upsert`, `mapGet` and the
name map -/

/-- Inserting a fresh key appends the pair. -/
theorem upsert_eq_append {α : Type} (m : List (String × α)) (k : String) (v : α)
    (h : k ∉ m.map Prod.fst) : upsert m k v = m ++ [(k, v)] := by
  induction m with
  | nil => rfl
  | cons p rest ih =>
    obtain ⟨k0, v0⟩ := p
    simp only [List.map_cons, List.mem_cons] at h
    push_neg at h
    rw [upsert, if_neg (by simp only [beq_iff_eq]; exact fun hh => h.1 hh.symm),
      ih h.2]
    simp

/-- The keys of an `upsert` are the inserted key plus the old keys. -/
theorem mem_upsert_map_fst {α : Type} (m : List (String × α)) (k k' : String)
    (v : α) : k' ∈ (upsert m k v).map Prod.fst ↔ k' = k ∨ k' ∈ m.map Prod.fst := by
  induction m with
  | nil => simp [upsert]
  | cons p rest ih =>
    obtain ⟨k0, v0⟩ := p
    rw [upsert]
    by_cases h : k0 = k
    · subst h
      rw [if_pos (by simp)]
      simp only [List.map_cons, List.mem_cons]
      tauto
    · rw [if_neg (by simpa using h)]
      simp only [List.map_cons, List.mem_cons, ih]
      tauto

/-- Every value of an `upsert` is the inserted value or an old value. -/
theorem mem_upsert_map_snd {α : Type} (m : List (String × α)) (k : String)
    (v x : α) : x ∈ (upsert m k v).map Prod.snd → x = v ∨ x ∈ m.map Prod.snd := by
  induction m with
  | nil => simp [upsert]
  | cons p rest ih =>
    obtain ⟨k0, v0⟩ := p
    rw [upsert]
    by_cases h : k0 = k
    · subst h
      rw [if_pos (by simp)]
      simp only [List.map_cons, List.mem_cons]
      rintro (rfl | hx)
      · exact Or.inl rfl
      · exact Or.inr (Or.inr hx)
    · rw [if_neg (by simpa using h)]
      simp only [List.map_cons, List.mem_cons]
      rintro (rfl | hx)
      · exact Or.inr (Or.inl rfl)
      · rcases ih hx with h1 | h1
        · exact Or.inl h1
        · exact Or.inr (Or.inr h1)

/-- Inserting a value that is not already present preserves
distinctness of the stored values. -/
theorem upsert_snd_nodup {α : Type} (m : List (String × α)) (k : String) (v : α)
    (h1 : (m.map Prod.snd).Nodup) (h2 : v ∉ m.map Prod.snd) :
    ((upsert m k v).map Prod.snd).Nodup := by
  induction m with
  | nil => simp [upsert]
  | cons p rest ih =>
    obtain ⟨k0, v0⟩ := p
    simp only [List.map_cons, List.nodup_cons, List.mem_cons] at h1 h2
    push_neg at h2
    rw [upsert]
    by_cases h : k0 = k
    · subst h
      rw [if_pos (by simp)]
      simp only [List.map_cons, List.nodup_cons]
      exact ⟨h2.2, h1.2⟩
    · rw [if_neg (by simpa using h)]
      simp only [List.map_cons, List.nodup_cons]
      refine ⟨?_, ih h1.2 h2.2⟩
      intro hx
      rcases mem_upsert_map_snd rest k v v0 hx with rfl | hx'
      · exact h2.1 rfl
      · exact h1.1 hx'

/-- The name-map fold keeps its stored values distinct. -/
theorem nameMapFold_snd_nodup :
    ∀ (raws : List String) (st : List (String × String) × ℕ),
      (st.1.map Prod.snd).Nodup →
      (((raws.foldl nameMapStep st).1).map Prod.snd).Nodup := by
  intro raws
  induction raws with
  | nil => intro st h; exact h
  | cons o rest ih =>
    intro st h
    rw [List.foldl_cons]
    exact ih _ (upsert_snd_nodup _ _ _ h (sanitizeStep_fresh _ _ _))

/-- The sanitized names of a header sequence are pairwise distinct. -/
theorem sanitizeNames_nodup (raws : List String) :
    (sanitizeNames raws).Nodup :=
  nameMapFold_snd_nodup raws ([], 1) List.nodup_nil

/-- The name-map fold visits each raw header once: with distinct fresh
headers its key sequence is the raw header sequence. -/
theorem nameMapFold_fst :
    ∀ (raws : List String) (st : List (String × String) × ℕ),
      raws.Nodup → (∀ o ∈ raws, o ∉ st.1.map Prod.fst) →
      ((raws.foldl nameMapStep st).1).map Prod.fst = st.1.map Prod.fst ++ raws := by
  intro raws
  induction raws with
  | nil => intro st _ _; simp
  | cons o rest ih =>
    intro st hnd hfresh
    rw [List.foldl_cons]
    have hndr := (List.nodup_cons.mp hnd).2
    have honotr := (List.nodup_cons.mp hnd).1
    have hup : (nameMapStep st o).1 = st.1 ++ [(o, (sanitizeStep (st.1.map Prod.snd) st.2 o).1)] :=
      upsert_eq_append _ _ _ (hfresh o (List.mem_cons_self o rest))
    rw [ih (nameMapStep st o) hndr ?fresh, hup]
    · simp
    case fresh =>
      intro b hb
      rw [hup]
      simp only [List.map_append, List.mem_append, List.map_cons, List.map_nil,
        List.mem_singleton]
      push_neg
      refine ⟨hfresh b (List.mem_cons_of_mem o hb), ?_⟩
      intro hbo
      exact honotr (hbo ▸ hb)

/-- With distinct raw headers the name map is keyed by them in order. -/
theorem buildNameMap_fst (raws : List String) (h : raws.Nodup) :
    (buildNameMap raws).map Prod.fst = raws := by
  rw [buildNameMap, nameMapFold_fst raws ([], 1) h (by simp)]
  rfl

/-- Every raw header ends up among the name map's keys (no
distinctness needed). -/
theorem nameMapFold_fst_mem :
    ∀ (raws : List String) (st : List (String × String) × ℕ) (o : String),
      o ∈ raws ∨ o ∈ st.1.map Prod.fst →
      o ∈ ((raws.foldl nameMapStep st).1).map Prod.fst := by
  intro raws
  induction raws with
  | nil =>
    intro st o h
    rcases h with h | h
    · cases h
    · exact h
  | cons x rest ih =>
    intro st o h
    rw [List.foldl_cons]
    apply ih
    rcases h with h | h
    · rcases List.mem_cons.mp h with rfl | hmem
      · exact Or.inr ((mem_upsert_map_fst _ _ _ _).mpr (Or.inl rfl))
      · exact Or.inl hmem
    · exact Or.inr ((mem_upsert_map_fst _ _ _ _).mpr (Or.inr h))

/-- Looking up a present key yields one of the stored values. -/
theorem mapGet_getD_mem_snd {α : Type} (m : List (String × α)) (o : String)
    (d : α) (h : o ∈ m.map Prod.fst) : (mapGet m o).getD d ∈ m.map Prod.snd := by
  induction m with
  | nil => cases h
  | cons p rest ih =>
    rw [mapGet]
    by_cases hp : p.1 == o
    · simp [List.find?_cons, hp]
    · simp only [List.map_cons, List.mem_cons] at h
      rcases h with h | h
      · exact absurd (by simp [h]) hp
      · simpa [List.find?_cons, hp, mapGet] using Or.inr (ih h)

/-- On its own (distinct) key sequence, `mapGet` reads the stored
values back in order. -/
theorem map_mapGet_eq_snd {α : Type} :
    ∀ (m : List (String × α)) (d : α), (m.map Prod.fst).Nodup →
      (m.map Prod.fst).map (fun o => (mapGet m o).getD d) = m.map Prod.snd := by
  intro m
  induction m with
  | nil => intro d _; rfl
  | cons p rest ih =>
    intro d hnd
    obtain ⟨k0, v0⟩ := p
    simp only [List.map_cons, List.nodup_cons] at hnd ⊢
    have htail : (rest.map Prod.fst).map (fun o => (mapGet ((k0, v0) :: rest) o).getD d) =
        (rest.map Prod.fst).map (fun o => (mapGet rest o).getD d) := by
      apply List.map_congr_left
      intro o ho
      have hne : ¬((k0 == o) = true) := by
        simp only [beq_iff_eq]
        intro hq
        exact hnd.1 (hq ▸ ho)
      simp [mapGet, List.find?_cons, hne]
    congr 1
    · simp [mapGet, List.find?_cons]
    · rw [htail, ih d hnd.2]

/-- Keys of a fold of `upsert`s over a key/value-generating function:
with distinct generated keys, they are the old keys followed by the
generated keys in order. -/
theorem foldl_upsert_keys {α β : Type} :
    ∀ (l : List β) (g : β → String) (f : β → α) (acc : List (String × α)),
      (l.map g).Nodup → (∀ b ∈ l, g b ∉ acc.map Prod.fst) →
      ((l.foldl (fun a x => upsert a (g x) (f x)) acc).map Prod.fst) =
        acc.map Prod.fst ++ l.map g := by
  intro l
  induction l with
  | nil => intro g f acc _ _; simp
  | cons x rest ih =>
    intro g f acc hnd hfresh
    simp only [List.map_cons, List.nodup_cons] at hnd
    rw [List.foldl_cons,
      ih g f _ hnd.2 ?fresh,
      upsert_eq_append acc (g x) (f x) (hfresh x (List.mem_cons_self x rest))]
    · simp
    case fresh =>
      intro b hb
      rw [upsert_eq_append acc (g x) (f x) (hfresh x (List.mem_cons_self x rest))]
      simp only [List.map_append, List.mem_append, List.map_cons, List.map_nil,
        List.mem_singleton]
      push_neg
      refine ⟨hfresh b (List.mem_cons_of_mem x hb), ?_⟩
      intro hbg
      exact hnd.1 (hbg ▸ List.mem_map_of_mem g hb)

/-- Keys of a fold of `upsert`s are old keys or generated keys. -/
theorem foldl_upsert_keys_subset {α β : Type} :
    ∀ (l : List β) (g : β → String) (f : β → α) (acc : List (String × α))
      (k : String),
      k ∈ ((l.foldl (fun a x => upsert a (g x) (f x)) acc).map Prod.fst) →
      k ∈ acc.map Prod.fst ∨ k ∈ l.map g := by
  intro l
  induction l with
  | nil => intro g f acc k h; exact Or.inl h
  | cons x rest ih =>
    intro g f acc k h
    rw [List.foldl_cons] at h
    rcases ih g f _ k h with h1 | h1
    · rcases (mem_upsert_map_fst _ _ _ _).mp h1 with rfl | h2
      · exact Or.inr (by simp)
      · exact Or.inl h2
    · exact Or.inr (List.mem_cons_of_mem _ h1)

/-- The key sequence of a cleaned row is the sanitized-name image of
the raw header sequence. -/
theorem cleanRow_keys (raws : List String) (nm : List (String × String))
    (row : RawRow) (hn : (raws.map (fun o => (mapGet nm o).getD "")).Nodup) :
    (cleanRow raws nm row).map Prod.fst =
      raws.map (fun o => (mapGet nm o).getD "") := by
  rw [cleanRow, foldl_upsert_keys raws (fun o => (mapGet nm o).getD "")
    (fun o => cleanValue (rowGetRaw row o)) [] hn (by simp)]
  rfl

/-- With distinct raw headers, every cleaned row's key sequence is
exactly the sanitized name sequence. -/
theorem cleanRow_keys_sanitized (raws : List String) (row : RawRow)
    (h : raws.Nodup) :
    (cleanRow raws (buildNameMap raws) row).map Prod.fst = sanitizeNames raws := by
  have hfst := buildNameMap_fst raws h
  have hmap : raws.map (fun o => (mapGet (buildNameMap raws) o).getD "") =
      sanitizeNames raws := by
    calc raws.map (fun o => (mapGet (buildNameMap raws) o).getD "")
        = ((buildNameMap raws).map Prod.fst).map
            (fun o => (mapGet (buildNameMap raws) o).getD "") := by rw [hfst]
      _ = (buildNameMap raws).map Prod.snd :=
          map_mapGet_eq_snd _ "" (by rw [hfst]; exact h)
  rw [cleanRow_keys raws (buildNameMap raws) row (hmap ▸ sanitizeNames_nodup raws),
    hmap]

/-- Lemma: `analyzeColumn` always reports the column name it was given. -/
theorem analyzeColumn_name (c : String) (vs : List JsValue) :
    (analyzeColumn c vs).name = c := by
  rw [analyzeColumn]
  split
  · rfl
  · dsimp only
    split <;> (try split) <;> rfl

/-- Membership gives a `true` `List.contains`. -/
theorem contains_eq_true_of_mem {l : List String} {a : String} (h : a ∈ l) :
    l.contains a = true :=
  List.elem_iff.mpr h

/-- Restricting a row to its own keys changes nothing. -/
theorem restrict_self (r : RawRow) : restrictRow (r.map Prod.fst) r = r := by
  rw [restrictRow, List.filter_eq_self]
  intro p hp
  exact contains_eq_true_of_mem (List.mem_map_of_mem Prod.fst hp)

/-- Lemma: `find?` by a key inside the restriction key set is unchanged by the
restriction. -/
theorem find?_restrict (keys : List String) (r : RawRow) (k : String)
    (hk : k ∈ keys) :
    (restrictRow keys r).find? (fun p => p.1 == k) =
      r.find? (fun p => p.1 == k) := by
  induction r with
  | nil => rfl
  | cons p rest ih =>
    obtain ⟨k0, v0⟩ := p
    rw [restrictRow, List.filter_cons]
    by_cases hc : keys.contains k0 = true
    · rw [if_pos (by simpa using hc)]
      by_cases hk0 : (k0 == k) = true
      · simp [List.find?_cons, hk0]
      · have hk0' : ((k0, v0).1 == k) = false := by simpa using hk0
        rw [List.find?_cons_of_neg _ (by simp [hk0']),
          List.find?_cons_of_neg _ (by simp [hk0'])]
        exact ih
    · have hk0 : ((k0, v0).1 == k) = false := by
        simp only [beq_eq_false_iff_ne, ne_eq]
        intro hq
        exact hc (contains_eq_true_of_mem (hq ▸ hk))
      rw [if_neg (by simpa using hc), List.find?_cons_of_neg _ (by simp [hk0])]
      exact ih

/-- Reading a restricted row at a retained key is unchanged. -/
theorem rowGetRaw_restrict (keys : List String) (r : RawRow) (k : String)
    (hk : k ∈ keys) : rowGetRaw (restrictRow keys r) k = rowGetRaw r k := by
  rw [rowGetRaw, rowGetRaw, find?_restrict keys r k hk]

/-- Row cleaning reads a row only through `rowGetRaw` at the raw
headers. -/
theorem cleanRow_congr (raws : List String) (nm : List (String × String))
    (row row' : RawRow) (h : ∀ o ∈ raws, rowGetRaw row' o = rowGetRaw row o) :
    cleanRow raws nm row' = cleanRow raws nm row := by
  rw [cleanRow, cleanRow]
  suffices haux : ∀ (l : List String) (acc : CleanRow),
      (∀ o ∈ l, rowGetRaw row' o = rowGetRaw row o) →
      l.foldl (fun acc orig =>
        upsert acc ((mapGet nm orig).getD "") (cleanValue (rowGetRaw row' orig))) acc =
      l.foldl (fun acc orig =>
        upsert acc ((mapGet nm orig).getD "") (cleanValue (rowGetRaw row orig))) acc by
    exact haux raws [] h
  intro l
  induction l with
  | nil => intro acc _; rfl
  | cons o rest ih =>
    intro acc hl
    rw [List.foldl_cons, List.foldl_cons, hl o (by simp)]
    exact ih _ (fun o' ho' => hl o' (List.mem_cons_of_mem _ ho'))

/-- C9: the profile is determined solely by each row's restriction to
the first row's keys — dropping from every row all keys that do not
occur in the first row leaves the profile (columns, rows, sample rows,
everything) unchanged; moreover every key of every produced row and
every produced column name comes from the sanitized first-row headers. -/
theorem c9_first_row_determines_columns :
    (∀ (name : String) (r0 : RawRow) (rest : List RawRow),
        generateDatasetProfile ((r0 :: rest).map (restrictRow (r0.map Prod.fst))) name =
          generateDatasetProfile (r0 :: rest) name) ∧
    (∀ (name : String) (data : List RawRow),
        ((generateDatasetProfile data name).toOption.all (fun p =>
          (p.rows ++ p.sample_rows).all (fun r =>
            (r.map Prod.fst).all
              (fun k => (sanitizeNames (rawKeysOf data)).contains k)) &&
          p.columns.all
            (fun c => (sanitizeNames (rawKeysOf data)).contains c.name))) = true) := by
  constructor
  · intro name r0 rest
    rw [List.map_cons, restrict_self]
    simp only [generateDatasetProfile]
    have hclean :
        (r0 :: rest.map (restrictRow (r0.map Prod.fst))).map
            (cleanRow (r0.map Prod.fst) (buildNameMap (r0.map Prod.fst))) =
          (r0 :: rest).map
            (cleanRow (r0.map Prod.fst) (buildNameMap (r0.map Prod.fst))) := by
      rw [List.map_cons, List.map_cons, List.map_map]
      congr 1
      apply List.map_congr_left
      intro r _
      exact cleanRow_congr (r0.map Prod.fst) (buildNameMap (r0.map Prod.fst)) r
        (restrictRow (r0.map Prod.fst) r)
        (fun o ho => rowGetRaw_restrict (r0.map Prod.fst) r o ho)
    rw [hclean]
  · intro name data
    cases data with
    | nil => rfl
    | cons r0 rest =>
      have hkey : ∀ (row : RawRow) (k : String),
          k ∈ (cleanRow (r0.map Prod.fst) (buildNameMap (r0.map Prod.fst)) row).map Prod.fst →
          k ∈ sanitizeNames (r0.map Prod.fst) := by
        intro row k hk
        rw [cleanRow] at hk
        rcases foldl_upsert_keys_subset (r0.map Prod.fst)
            (fun o => (mapGet (buildNameMap (r0.map Prod.fst)) o).getD "")
            (fun o => cleanValue (rowGetRaw row o)) [] k hk with h | h
        · cases h
        · rcases List.mem_map.mp h with ⟨o, ho, rfl⟩
          exact mapGet_getD_mem_snd _ o ""
            (nameMapFold_fst_mem (r0.map Prod.fst) ([], 1) o (Or.inl ho))
      simp only [generateDatasetProfile, Except.toOption, Option.all,
        Bool.and_eq_true, List.all_eq_true]
      constructor
      · intro r hr
        have hr' : r ∈ ((r0 :: rest).map
            (cleanRow (r0.map Prod.fst) (buildNameMap (r0.map Prod.fst)))) := by
          rcases List.mem_append.mp hr with h | h
          · exact h
          · exact List.take_subset 10 _ h
        rcases List.mem_map.mp hr' with ⟨row, _, rfl⟩
        intro k hk
        exact contains_eq_true_of_mem (hkey row k hk)
      · intro c hc
        rcases List.mem_map.mp hc with ⟨col, hcol, rfl⟩
        rw [analyzeColumn_name]
        exact contains_eq_true_of_mem (List.mem_of_mem_filter hcol)

/-- Mapping each column name through its analysis is the identity on a
name list. -/
theorem map_analyzeColumn_name (L : List String) (f : String → List JsValue) :
    L.map (fun c => (analyzeColumn c (f c)).name) = L := by
  induction L with
  | nil => rfl
  | cons c cs ih => simp [analyzeColumn_name, ih]

/-- C1 counterexample: for the single-row dataset
`[{a:"1", b:""}]` the column `b` is empty in every row, so it is
dropped from the profile's `columns` (`["a"]`) — but its key is *not*
dropped from the cleaned rows: `rows` and `sample_rows` still carry the
key `b` (with an empty-string value), so the asserted key-set agreement
between rows and columns is false. -/
theorem c1_counterexample :
    ((generateDatasetProfile [[("a", some (JsValue.str "1")),
          ("b", some (JsValue.str ""))]] "d.csv").toOption.map
        (fun p => (p.columns.map DatasetColumn.name,
          p.rows.map (fun r => r.map Prod.fst),
          p.sample_rows.map (fun r => r.map Prod.fst)))) =
      some (["a"], [["a", "b"]], [["a", "b"]]) ∧
    rowColumnKeySetAgreement
      [[("a", some (JsValue.str "1")), ("b", some (JsValue.str ""))]] "d.csv" =
      false := by
  constructor <;> decide

/-- C1 amended: for every non-empty input (with the distinct raw first-
row keys a JS object guarantees), every row of `rows` and of
`sample_rows` carries exactly the full sanitized key sequence — the
keys of empty-only columns included — while the profile's `columns` are
exactly the sanitized columns with at least one non-empty value; a
dropped empty-only column is thus excluded from `columns` but its key
survives in the cleaned rows. -/
theorem c1_amended_rows_keep_dropped_keys :
    ∀ (name : String) (data : List RawRow),
      data ≠ [] → (rawKeysOf data).Nodup →
      ((generateDatasetProfile data name).toOption.all (fun p =>
        p.rows.all (fun r => r.map Prod.fst == sanitizeNames (rawKeysOf data)) &&
        p.sample_rows.all
          (fun r => r.map Prod.fst == sanitizeNames (rawKeysOf data)) &&
        (p.columns.map DatasetColumn.name ==
          (sanitizeNames (rawKeysOf data)).filter
            (fun col => p.rows.any (presentIn · col))))) = true := by
  intro name data hne hnd
  cases data with
  | nil => exact absurd rfl hne
  | cons r0 rest =>
    have hnd' : (r0.map Prod.fst).Nodup := hnd
    simp only [generateDatasetProfile, Except.toOption, Option.all,
      Bool.and_eq_true, List.all_eq_true]
    refine ⟨⟨?_, ?_⟩, ?_⟩
    · intro r hr
      rcases List.mem_map.mp hr with ⟨row, _, rfl⟩
      exact beq_iff_eq.mpr (cleanRow_keys_sanitized (r0.map Prod.fst) row hnd')
    · intro r hr
      rcases List.mem_map.mp (List.take_subset 10 _ hr) with ⟨row, _, rfl⟩
      exact beq_iff_eq.mpr (cleanRow_keys_sanitized (r0.map Prod.fst) row hnd')
    · rw [beq_iff_eq, List.map_map]
      exact map_analyzeColumn_name _ _

/-- C1 witness: on the counterexample dataset the amended law holds —
rows keep both keys while only `a` is profiled. -/
theorem c1_amended_rows_keep_dropped_keys_witness :
    ((generateDatasetProfile [[("a", some (JsValue.str "1")),
          ("b", some (JsValue.str ""))]] "d.csv").toOption.all (fun p =>
      p.rows.all (fun r => r.map Prod.fst ==
        sanitizeNames (rawKeysOf [[("a", some (JsValue.str "1")),
          ("b", some (JsValue.str ""))]])) &&
      p.sample_rows.all (fun r => r.map Prod.fst ==
        sanitizeNames (rawKeysOf [[("a", some (JsValue.str "1")),
          ("b", some (JsValue.str ""))]])) &&
      (p.columns.map DatasetColumn.name ==
        (sanitizeNames (rawKeysOf [[("a", some (JsValue.str "1")),
          ("b", some (JsValue.str ""))]])).filter
          (fun col => p.rows.any (presentIn · col))))) = true :=
  c1_amended_rows_keep_dropped_keys "d.csv"
    [[("a", some (JsValue.str "1")), ("b", some (JsValue.str ""))]]
    (by decide) (by decide)

/-- C4 counterexample: three raw headers whose trimmed form is the
same name `a` (distinct raw keys, as `Object.keys` requires) are
sanitized to `a`, `a_1`, `a_1_2` — not to the flat suffix sequence
`a`, `a_1`, `a_2` the claim asserts, because the dedup loop appends
each new suffix to the *evolving* candidate. -/
theorem c4_counterexample :
    sanitizeNames ["a", " a", "a "] = ["a", "a_1", "a_1_2"] ∧
    sanitizeNames ["a", " a", "a "] ≠ ["a", "a_1", "a_2"] := by
  constructor <;> decide

/-- C4 amended: a raw header whose trimmed form is empty, matches the
underscores-plus-digits pattern or the `__EMPTY` marker is replaced by
`Column_<n>` with the counter bumped once per replacement (valid
headers keep the trimmed name and leave the counter alone); the dedup
loop then repeatedly appends `_1`, `_2`, … to the *current* candidate
(so successive collisions accumulate suffixes) until the candidate is
not among the already-assigned names, and its result is always fresh;
three headers trimming to `a` therefore yield `a`, `a_1`, `a_1_2`. -/
theorem c4_amended_sanitize :
    (∀ (existing : List String) (counter : ℕ) (name : String),
        (jsTrim name == "" || isAutoNumbered (jsTrim name) ||
          isEmptyMarker (jsTrim name)) = true →
        sanitizeStep existing counter name =
          (dedupName (existing.length + 1) existing ("Column_" ++ Nat.repr counter) 1,
            counter + 1)) ∧
    (∀ (existing : List String) (counter : ℕ) (name : String),
        (jsTrim name == "" || isAutoNumbered (jsTrim name) ||
          isEmptyMarker (jsTrim name)) = false →
        sanitizeStep existing counter name =
          (dedupName (existing.length + 1) existing (jsTrim name) 1, counter)) ∧
    (∀ (fuel : ℕ) (existing : List String) (cand : String) (suffix : ℕ),
        cand ∈ existing →
        dedupName (fuel + 1) existing cand suffix =
          dedupName fuel existing (cand ++ "_" ++ Nat.repr suffix) (suffix + 1)) ∧
    (∀ (fuel : ℕ) (existing : List String) (cand : String) (suffix : ℕ),
        cand ∉ existing → dedupName (fuel + 1) existing cand suffix = cand) ∧
    (∀ (existing : List String) (counter : ℕ) (name : String),
        (sanitizeStep existing counter name).1 ∉ existing) ∧
    sanitizeNames ["a", " a", "a "] = ["a", "a_1", "a_1_2"] := by
  refine ⟨?_, ?_, ?_, ?_, sanitizeStep_fresh, by decide⟩
  · intro existing counter name h
    simp [sanitizeStep, h]
  · intro existing counter name h
    simp [sanitizeStep, h]
  · intro fuel existing cand suffix h
    simp [dedupName, h]
  · intro fuel existing cand suffix h
    simp [dedupName, h]

/-- C4 witness: instantiations of the conditional clauses of the
amended sanitization law — an `__EMPTY` header becomes `Column_1` with
the counter bumped, a plain header keeps its trimmed name, one dedup
pass on a colliding candidate, no pass on a fresh one, and freshness of
the produced name against a concrete assigned set. -/
theorem c4_amended_sanitize_witness :
    sanitizeStep ["x"] 1 " __EMPTY_2 " = (dedupName 2 ["x"] "Column_1" 1, 2) ∧
    sanitizeStep ["x"] 1 " b " = (dedupName 2 ["x"] "b" 1, 1) ∧
    dedupName 2 ["a"] "a" 1 = dedupName 1 ["a"] "a_1" 2 ∧
    dedupName 2 ["a"] "b" 1 = "b" ∧
    (sanitizeStep ["a", "a_1"] 1 "a").1 ∉ ["a", "a_1"] :=
  ⟨c4_amended_sanitize.1 ["x"] 1 " __EMPTY_2 " (by decide),
   c4_amended_sanitize.2.1 ["x"] 1 " b " (by decide),
   c4_amended_sanitize.2.2.1 1 ["a"] "a" 1 (by decide),
   c4_amended_sanitize.2.2.2.1 1 ["a"] "b" 1 (by decide),
   c4_amended_sanitize.2.2.2.2.1 ["a", "a_1"] 1 "a"⟩

set_option maxRecDepth 8000 in
/-- C3 counterexample: profiling
`[{y:"2020", amount:"100"}, {y:"2021", amount:"150"}]` and running the
local analytics engine emits **no** insight line at all (in particular
none containing `+50%`): both values of `y` are coerced to numbers, so
`y` is typed `integer`, and the name `y` does not match the
`/year|date|time|occurrence/i` pattern, so there is no date-like column
and the year-over-year branch never runs. -/
theorem c3_counterexample :
    ((generateDatasetProfile
          [[("y", some (JsValue.str "2020")), ("amount", some (JsValue.str "100"))],
           [("y", some (JsValue.str "2021")), ("amount", some (JsValue.str "150"))]]
          "d.csv").toOption.map
        (fun p => (computeLocalAnalytics p p.rows).lines)) = some [] ∧
    ((generateDatasetProfile
          [[("y", some (JsValue.str "2020")), ("amount", some (JsValue.str "100"))],
           [("y", some (JsValue.str "2021")), ("amount", some (JsValue.str "150"))]]
          "d.csv").toOption.map
        (fun p => (computeLocalAnalytics p p.rows).lines.any
          (fun l => strHasInfix l "+50%"))) = some false := by
  constructor <;> decide

set_option maxRecDepth 8000 in
/-- C3 amended: when the date-like column really is recognised — here
`y` holds parseable date strings `"2020-01"` / `"2021-01"`, so it is
typed `date` and is not itself the first numeric column — the engine
sums `amount` per extracted year and emits exactly the year-over-year
line, which contains `+50%`. -/
theorem c3_amended_yoy_insight :
    ((generateDatasetProfile
          [[("y", some (JsValue.str "2020-01")), ("amount", some (JsValue.str "100"))],
           [("y", some (JsValue.str "2021-01")), ("amount", some (JsValue.str "150"))]]
          "d.csv").toOption.map
        (fun p => (computeLocalAnalytics p p.rows).lines)) =
      some ["YoY change of amount from 2020 to 2021: +50%"] ∧
    strHasInfix "YoY change of amount from 2020 to 2021: +50%" "+50%" = true := by
  constructor <;> decide

/-- C6: the profiler fails with the empty-dataset error exactly when
the input row list is empty; on every non-empty input it succeeds with
`total_rows` equal to the number of cleaned rows, which equals the
number of input rows, and with as many columns as there are sanitized
columns having at least one non-empty value. -/
theorem c6_profiler_contract :
    (∀ (name : String) (data : List RawRow),
        (generateDatasetProfile data name).toOption = none ↔ data = []) ∧
    (∀ name : String,
        generateDatasetProfile [] name = .error "Dataset is empty or invalid") ∧
    (∀ (name : String) (data : List RawRow), data ≠ [] →
        (generateDatasetProfile data name).toOption.map
            (fun p => (p.total_rows, p.rows.length, p.columns.length)) =
          some (data.length, data.length, (nonEmptySanitizedCols data).length)) := by
  refine ⟨?_, fun _ => rfl, ?_⟩
  · intro name data
    cases data with
    | nil => simp [generateDatasetProfile, Except.toOption]
    | cons r rest => simp [generateDatasetProfile, Except.toOption]
  · intro name data h
    cases data with
    | nil => exact absurd rfl h
    | cons r rest =>
      simp [generateDatasetProfile, Except.toOption, nonEmptySanitizedCols,
        cleanedDataOf, rawKeysOf, sanitizeNames]

/-- C6 witness: a concrete 2-row dataset with one empty-only column
profiles to 2 total rows, 2 cleaned rows, and 1 column. -/
theorem c6_profiler_contract_witness :
    (generateDatasetProfile [[("a", some (JsValue.str "1")), ("b", some (JsValue.str ""))],
        [("a", some (JsValue.str "2")), ("b", none)]] "t.csv").toOption.map
        (fun p => (p.total_rows, p.rows.length, p.columns.length)) =
      some (2, 2, 1) := by
  have h := c6_profiler_contract.2.2 "t.csv"
    [[("a", some (JsValue.str "1")), ("b", some (JsValue.str ""))],
     [("a", some (JsValue.str "2")), ("b", none)]] (by decide)
  exact h.trans (by decide)

/-- Each value lands in exactly one bucket, so the four bucket counts
partition the value list. -/
theorem bucket_counts_partition (vs : List JsValue) :
    boolCount vs + numCount vs + dateCount vs + otherCount vs = vs.length := by
  induction vs with
  | nil => rfl
  | cons v rest ih =>
    simp only [boolCount, numCount, dateCount, otherCount, List.filter_cons] at *
    rcases h : classifyValue v with _ | b | _ | _ <;> simp [h] <;> omega

set_option maxRecDepth 8000 in
/-- C2: per-value classification is into at most one bucket, tested in
the order boolean token → finite numeric → parseable date longer than 4
characters; the aggregate applies the priority boolean ≥ 0.8 → date ≥
0.8 → numeric ≥ 0.8 (integer iff `integerCount/numericCount ≥ 0.9`) →
string; and a column with exactly 4 of 5 values parseable as dates is
classified `date`. -/
theorem c2_type_detection :
    (∀ vs : List JsValue,
        boolCount vs + numCount vs + dateCount vs + otherCount vs = vs.length) ∧
    (∀ v : JsValue, boolTokens.contains (normValue v) = true →
        classifyValue v = .booleanB) ∧
    (∀ (v : JsValue) (q : ℚ), boolTokens.contains (normValue v) = false →
        numericFiniteParse (normValue v) = some q →
        classifyValue v = .numericB (q.den == 1)) ∧
    (∀ v : JsValue, boolTokens.contains (normValue v) = false →
        numericFiniteParse (normValue v) = none →
        (jsDateParseYMD (normValue v)).isSome = true → 4 < (normValue v).length →
        classifyValue v = .dateB) ∧
    (∀ vs : List JsValue, vs ≠ [] →
        (boolCount vs : ℚ) / vs.length ≥ 4 / 5 → detectColumnType vs = .boolean) ∧
    (∀ vs : List JsValue, vs ≠ [] →
        ¬((boolCount vs : ℚ) / vs.length ≥ 4 / 5) →
        (dateCount vs : ℚ) / vs.length ≥ 4 / 5 → detectColumnType vs = .date) ∧
    (∀ vs : List JsValue, vs ≠ [] →
        ¬((boolCount vs : ℚ) / vs.length ≥ 4 / 5) →
        ¬((dateCount vs : ℚ) / vs.length ≥ 4 / 5) →
        (numCount vs : ℚ) / vs.length ≥ 4 / 5 →
        detectColumnType vs =
          (if (intCount vs : ℚ) / (numCount vs : ℚ) ≥ 9 / 10 then .integer
           else .float)) ∧
    (∀ vs : List JsValue, vs ≠ [] →
        ¬((boolCount vs : ℚ) / vs.length ≥ 4 / 5) →
        ¬((dateCount vs : ℚ) / vs.length ≥ 4 / 5) →
        ¬((numCount vs : ℚ) / vs.length ≥ 4 / 5) →
        detectColumnType vs = .string) ∧
    detectColumnType [JsValue.str "2020-01-02", JsValue.str "2020-01-03",
        JsValue.str "2020-01-04", JsValue.str "2020-01-05", JsValue.str "hello"] =
      .date := by
  have hlen : ∀ vs : List JsValue, vs ≠ [] → vs.length ≠ 0 := by
    intro vs h
    simpa [List.length_eq_zero] using h
  refine ⟨bucket_counts_partition, ?_, ?_, ?_, ?_, ?_, ?_, ?_, by decide⟩
  · intro v h
    have h' : normValue v ∈ boolTokens := by simpa using h
    simp [classifyValue, h']
  · intro v q h hq
    have h' : normValue v ∉ boolTokens := by simpa using h
    simp [classifyValue, h', hq]
  · intro v h hq hd hl
    have h' : normValue v ∉ boolTokens := by simpa using h
    simp [classifyValue, h', hq, hd, hl]
  · intro vs hne h
    simp [detectColumnType, hlen vs hne, h]
  · intro vs hne h1 h2
    simp [detectColumnType, hlen vs hne, h1, h2]
  · intro vs hne h1 h2 h3
    simp [detectColumnType, hlen vs hne, h1, h2, h3]
  · intro vs hne h1 h2 h3
    simp [detectColumnType, hlen vs hne, h1, h2, h3]

set_option maxRecDepth 8000 in
/-- C2 witness: instantiations of every conditional clause — the
classification of concrete boolean / numeric / date tokens, and the
threshold cases at 4-of-5 dates, 5-of-5 booleans, 5-of-5 numerics
(integer-dominant) and a below-threshold mixture. -/
theorem c2_type_detection_witness :
    classifyValue (JsValue.str "Yes") = .booleanB ∧
    classifyValue (JsValue.str "1,234") = .numericB true ∧
    classifyValue (JsValue.str "2020-06-15") = .dateB ∧
    detectColumnType [JsValue.str "true", JsValue.str "no", JsValue.str "1",
        JsValue.str "0", JsValue.str "false"] = .boolean ∧
    detectColumnType [JsValue.str "2020-01-02", JsValue.str "2020-01-03",
        JsValue.str "2020-01-04", JsValue.str "2020-01-05", JsValue.str "x"] = .date ∧
    detectColumnType [JsValue.num 7, JsValue.num 8, JsValue.str "9",
        JsValue.num 10, JsValue.str "11"] =
      (if ((intCount [JsValue.num 7, JsValue.num 8, JsValue.str "9",
          JsValue.num 10, JsValue.str "11"] : ℚ) /
          (numCount [JsValue.num 7, JsValue.num 8, JsValue.str "9",
            JsValue.num 10, JsValue.str "11"] : ℚ) ≥ 9 / 10) then ColType.integer
        else ColType.float) ∧
    detectColumnType [JsValue.str "abc", JsValue.str "de-f", JsValue.str "ghi",
        JsValue.num 4, JsValue.str "jkl"] = .string :=
  ⟨c2_type_detection.2.1 (JsValue.str "Yes") (by decide),
   c2_type_detection.2.2.1 (JsValue.str "1,234") 1234 (by decide) (by decide),
   c2_type_detection.2.2.2.1 (JsValue.str "2020-06-15") (by decide) (by decide)
     (by decide) (by decide),
   c2_type_detection.2.2.2.2.1 _ (by decide) (by decide),
   c2_type_detection.2.2.2.2.2.1 _ (by decide) (by decide) (by decide),
   c2_type_detection.2.2.2.2.2.2.1 _ (by decide) (by decide) (by decide) (by decide),
   c2_type_detection.2.2.2.2.2.2.2.1 _ (by decide) (by decide) (by decide) (by decide)⟩

/-- C10: a range filter carrying exactly one bound (no inclusion list,
the other bound unset) matches every row, and `applyFilters` over a
list of such single-bound filters returns the rows unchanged. -/
theorem c10_single_bound_noop :
    (∀ (row : CleanRow) (f : FilterSpec),
        (f.values = none ∨ f.values = some []) →
        ((f.min = none ∧ f.max ≠ none) ∨ (f.min ≠ none ∧ f.max = none)) →
        matchesFilter row f = true) ∧
    (∀ (rows : List CleanRow) (filters : List FilterSpec),
        (∀ f ∈ filters,
          (f.values = none ∨ f.values = some []) ∧
          ((f.min = none ∧ f.max ≠ none) ∨ (f.min ≠ none ∧ f.max = none))) →
        applyFilters rows filters = rows) := by
  have base : ∀ (row : CleanRow) (f : FilterSpec),
      (f.values = none ∨ f.values = some []) →
      ((f.min = none ∧ f.max ≠ none) ∨ (f.min ≠ none ∧ f.max = none)) →
      matchesFilter row f = true := by
    intro row f hv hb
    have hv' : (f.values.getD []).length = 0 := by
      rcases hv with h | h <;> simp [h]
    simp only [matchesFilter, hv']
    rcases hb with ⟨h1, _⟩ | ⟨_, h2⟩
    · simp only [h1]
      cases f.max <;> simp
    · simp only [h2]
      cases f.min <;> simp
  refine ⟨base, ?_⟩
  intro rows filters hf
  rw [applyFilters, List.filter_eq_self]
  intro r _
  rw [List.all_eq_true]
  intro f hmem
  exact base r f (hf f hmem).1 (hf f hmem).2

/-- C7: default-permissive filter fallbacks — a filter with an empty
inclusion list and both bounds unset matches every row; with both
bounds present, a numerically viable comparison keeps the row iff the
value lies within `[min, max]` inclusive; and when neither the numeric
nor the date comparison is viable for the row, the row passes. -/
theorem c7_filter_fallbacks :
    (∀ (row : CleanRow) (f : FilterSpec),
        (f.values = none ∨ f.values = some []) → f.min = none → f.max = none →
        matchesFilter row f = true) ∧
    (∀ (row : CleanRow) (f : FilterSpec) (mn mx : JsValue) (n a b : ℚ),
        (f.values = none ∨ f.values = some []) →
        f.min = some mn → f.max = some mx →
        parseFloatOpt (rowGetC row f.column) = some n →
        boundToNum mn = some a → boundToNum mx = some b →
        matchesFilter row f = decide (a ≤ n ∧ n ≤ b)) ∧
    (∀ (row : CleanRow) (f : FilterSpec) (mn mx : JsValue),
        (f.values = none ∨ f.values = some []) →
        f.min = some mn → f.max = some mx →
        (parseFloatOpt (rowGetC row f.column) = none ∨ boundToNum mn = none ∨
          boundToNum mx = none) →
        (rawValueTime (rowGetC row f.column) = none ∨ boundToTime mn = none ∨
          boundToTime mx = none) →
        matchesFilter row f = true) := by
  refine ⟨?_, ?_, ?_⟩
  · intro row f hv h1 h2
    have hv' : (f.values.getD []).length = 0 := by
      rcases hv with h | h <;> simp [h]
    simp [matchesFilter, hv', h1, h2]
  · intro row f mn mx n a b hv h1 h2 hn ha hb
    have hv' : (f.values.getD []).length = 0 := by
      rcases hv with h | h <;> simp [h]
    simp [matchesFilter, hv', h1, h2, hn, ha, hb]
  · intro row f mn mx hv h1 h2 hnum hdate
    have hv' : (f.values.getD []).length = 0 := by
      rcases hv with h | h <;> simp [h]
    simp only [matchesFilter, hv', h1, h2]
    simp only [gt_iff_lt, lt_self_iff_false, if_false]
    cases hn : parseFloatOpt (rowGetC row f.column) <;>
      cases ha : boundToNum mn <;> cases hb : boundToNum mx <;>
      simp only [hn, ha, hb] at hnum ⊢ <;>
      try (rcases hnum with h | h | h <;> simp_all) <;>
      cases ht : rawValueTime (rowGetC row f.column) <;>
      cases hta : boundToTime mn <;> cases htb : boundToTime mx <;>
      simp only [ht, hta, htb] at hdate ⊢ <;>
      first
        | rfl
        | (rcases hdate with h | h | h <;> simp_all)

/-- C7 witness: instantiations of the three fallback laws — no
criteria passes, a concrete numeric range keeps an in-range value, and
an unparseable value/bound combination passes. -/
theorem c7_filter_fallbacks_witness :
    matchesFilter [("a", JsValue.num 5)] { column := "a" } = true ∧
    matchesFilter [("a", JsValue.num 5)]
        { column := "a", min := some (JsValue.num 1), max := some (JsValue.num 6) } =
      decide ((1 : ℚ) ≤ 5 ∧ (5 : ℚ) ≤ 6) ∧
    matchesFilter [("b", JsValue.str "hello")]
        { column := "b", min := some (JsValue.str "lo"), max := some (JsValue.str "hi") } =
      true :=
  ⟨c7_filter_fallbacks.1 [("a", JsValue.num 5)] { column := "a" } (Or.inl rfl) rfl rfl,
   c7_filter_fallbacks.2.1 [("a", JsValue.num 5)]
      { column := "a", min := some (JsValue.num 1), max := some (JsValue.num 6) }
      (JsValue.num 1) (JsValue.num 6) 5 1 6 (Or.inl rfl) rfl rfl rfl rfl rfl,
   c7_filter_fallbacks.2.2 [("b", JsValue.str "hello")]
      { column := "b", min := some (JsValue.str "lo"), max := some (JsValue.str "hi") }
      (JsValue.str "lo") (JsValue.str "hi") (Or.inl rfl) rfl rfl
      (Or.inr (Or.inl (by decide))) (Or.inr (Or.inl (by decide)))⟩

/-- C10 witness: a min-only filter passes a row, and `applyFilters`
with a single min-only filter is the identity on a concrete row list. -/
theorem c10_single_bound_noop_witness :
    matchesFilter [("a", JsValue.num 5)] { column := "a", min := some (JsValue.num 100) } = true ∧
    applyFilters [[("a", JsValue.num 5)]] [{ column := "a", min := some (JsValue.num 100) }] =
      [[("a", JsValue.num 5)]] :=
  ⟨c10_single_bound_noop.1 [("a", JsValue.num 5)]
      { column := "a", min := some (JsValue.num 100) } (Or.inl rfl)
      (Or.inr ⟨by simp, rfl⟩),
   c10_single_bound_noop.2 [[("a", JsValue.num 5)]]
      [{ column := "a", min := some (JsValue.num 100) }]
      (by intro f hmem; simp at hmem; subst hmem; exact ⟨Or.inl rfl, Or.inr ⟨by simp, rfl⟩⟩)⟩

end DataViz
